/-
Verification development for the d2pt-grid-updater reconciliation engine
(src/grid-updater.ts).  The engine's text processing (ledger table codec,
sidecar and README metadata lines) and its run state machine
(normal / force / repair modes) are shallowly embedded below; file contents
are modelled as lists of characters, and the JavaScript string operations
(split on /\r?\n/, trim, split on a character, the metadata-line regular
expressions) are translated into executable Lean functions.
-/
import Mathlib

namespace D2PT

/-- JavaScript strings, modelled as lists of characters. -/
abbrev Str := List Char

/-- Coerce a Lean string literal to the character-list model. -/
def strOf (s : String) : Str := s.data

/-- The JavaScript whitespace class (used by String.prototype.trim and \s). -/
def jsWs (c : Char) : Bool :=
  c = ' ' || c = '\t' || c = '\n' || c = '\r' || c = '\x0b' || c = '\x0c' ||
  c = '\u00A0' || c = '\u1680' || ('\u2000' ≤ c && c ≤ '\u200A') ||
  c = '\u2028' || c = '\u2029' || c = '\u202F' || c = '\u205F' ||
  c = '\u3000' || c = '\uFEFF'

/-- JavaScript String.prototype.trim: drop whitespace at both ends. -/
def trimL (cs : Str) : Str :=
  ((cs.dropWhile jsWs).reverse.dropWhile jsWs).reverse

/-- JavaScript content.split(/\r?\n/): split at each CRLF or LF. -/
def splitLinesL : Str → List Str
  | [] => [[]]
  | '\r' :: '\n' :: rest => [] :: splitLinesL rest
  | '\n' :: rest => [] :: splitLinesL rest
  | c :: rest =>
    match splitLinesL rest with
    | l :: ls => (c :: l) :: ls
    | [] => [[c]]

/-- JavaScript s.split(t) for a one-character separator t. -/
def splitOnCharL (t : Char) : Str → List Str
  | [] => [[]]
  | c :: rest =>
    if c = t then [] :: splitOnCharL t rest
    else
      match splitOnCharL t rest with
      | s :: ss => (c :: s) :: ss
      | [] => [[c]]

/-- lines.join("\n"). -/
def joinNL : List Str → Str
  | [] => []
  | [l] => l
  | l :: ls => l ++ '\n' :: joinNL ls

/-- The first index at which a predicate holds (for-loop with break). -/
def findIdxP (p : Str → Bool) : List Str → Option Nat
  | [] => none
  | l :: ls => if p l then some 0 else (findIdxP p ls).map (· + 1)

/-- ln.replace(/\|/g, " "): every pipe becomes a space. -/
def pipeToSpace (c : Char) : Char := if c = '|' then ' ' else c

/-- The separator-row test of grid-updater.ts:
/^\|?\s*-\x7b2,\x7d/.test(ln.replace(/\|/g, " ")) — after pipes are replaced
by spaces the line must start with optional whitespace followed by at least
two dashes. -/
def isSepLine (ln : Str) : Bool :=
  ((ln.map pipeToSpace).dropWhile jsWs).take 2 == ['-', '-']

/-- /^\|\s*-+/.test(row): pipe, optional whitespace, then a dash. -/
def startsSepRow (row : Str) : Bool :=
  match row with
  | '|' :: rest =>
    match rest.dropWhile jsWs with
    | '-' :: _ => true
    | _ => false
  | _ => false

/-- JavaScript truthiness of cols[i] || undefined: empty becomes none. -/
def strOpt (s : Str) : Option Str := if s == [] then none else some s

/-- JavaScript a || b on optional strings (undefined and "" are falsy). -/
def jsOrO (a b : Option Str) : Option Str :=
  match a with
  | some x => if x == [] then b else some x
  | none => b

/-- Truthiness of an optional string. -/
def truthy (o : Option Str) : Bool :=
  match o with
  | some x => !(x == [])
  | none => false

/-- Case-insensitively consume a (lowercase) pattern from the front. -/
def ciStrip : Str → Str → Option Str
  | [], cs => some cs
  | _ :: _, [] => none
  | p :: ps, c :: cs => if c.toLower = p then ciStrip ps cs else none

/-- The metadata-line pattern /^\*\x7b0,2\x7dLast update\*\x7b0,2\x7d\s*:/i
tested at the start of a character sequence. -/
def patAt (cs : Str) : Bool :=
  if (cs.takeWhile (· = '*')).length > 2 then false
  else
    ((ciStrip (strOf "last update") (cs.dropWhile (· = '*'))).map (fun r2 =>
      if (r2.takeWhile (· = '*')).length > 2 then false
      else (((r2.dropWhile (· = '*')).dropWhile jsWs).take 1 == [':']))).getD false

/-- JavaScript line terminators after which a multiline ^ anchor matches. -/
def lineTerm (c : Char) : Bool :=
  c = '\n' || c = '\r' || c = '\u2028' || c = '\u2029'

/-- Scan for the metadata-line pattern right after any line terminator. -/
def containsMAux : Str → Bool
  | [] => false
  | c :: rest => (lineTerm c && patAt rest) || containsMAux rest

/-- The whole-document test /^\*\x7b0,2\x7dLast update\*\x7b0,2\x7d\s*:/im:
the pattern must match at the start of the text or after a line terminator. -/
def containsM (cs : Str) : Bool := patAt cs || containsMAux cs

/-- /^#\s+/.test(line): a top-level markdown heading. -/
def isH1 (l : Str) : Bool :=
  match l with
  | '#' :: c :: _ => jsWs c
  | _ => false

/-! ## Ledger codec (grids.md) -/

/-- The optional date/patch pair read from the first data row of grids.md. -/
structure MdRow where
  date : Option Str
  patch : Option Str
deriving DecidableEq

/-- The row-level part of parseFirstRowFromMd: reject blank or
separator-like rows, split on pipes, trim, and require at least 3 columns;
empty cells become none. -/
def parseRowCells (row : Str) : Option MdRow :=
  if row == [] || row == ['|'] || startsSepRow row then none
  else
    if ((splitOnCharL '|' row).map trimL).length < 3 then none
    else
      some ⟨strOpt (((splitOnCharL '|' row).map trimL).getD 1 []),
            strOpt (((splitOnCharL '|' row).map trimL).getD 2 [])⟩

/-- parseFirstRowFromMd of grid-updater.ts: locate the separator line, read
the line right after it, then parse it with parseRowCells. -/
def parseFirstRowFromMd (content : Str) : Option MdRow :=
  if content == [] then none
  else
    match findIdxP isSepLine (splitLinesL content) with
    | none => none
    | some sepIndex =>
      if (splitLinesL content).length ≤ sepIndex + 1 then none
      else parseRowCells (trimL ((splitLinesL content).getD (sepIndex + 1) []))

/-- One iteration of the row loop in hasEntryInMd: does this line hold an
entry for the given date and either patch representation? -/
def rowHit (date patchA : Str) (patchB : Option Str) (line : Str) : Bool :=
  if trimL line == [] || trimL line == ['|'] then false
  else
    if ((splitOnCharL '|' (trimL line)).map trimL).length < 3 then false
    else
      (((splitOnCharL '|' (trimL line)).map trimL).getD 1 [] == date) &&
        ((((splitOnCharL '|' (trimL line)).map trimL).getD 2 [] == patchA) ||
          (match patchB with
           | some b => ((splitOnCharL '|' (trimL line)).map trimL).getD 2 [] == b
           | none => false))

/-- hasEntryInMd of grid-updater.ts: find the separator line and scan every
later line for a row matching the date and either patch representation. -/
def hasEntryInMd (content date patchA : Str) (patchB : Option Str) : Bool :=
  if content == [] then false
  else
    match findIdxP isSepLine (splitLinesL content) with
    | none => false
    | some sepIndex =>
      ((splitLinesL content).drop (sepIndex + 1)).any (rowHit date patchA patchB)

/-- The (date, patch) pair a line contributes when the row loop of
hasEntryInMd examines it (none when the line is skipped). -/
def rowPairOf (line : Str) : Option (Str × Str) :=
  if trimL line == [] || trimL line == ['|'] then none
  else
    if ((splitOnCharL '|' (trimL line)).map trimL).length < 3 then none
    else
      some (((splitOnCharL '|' (trimL line)).map trimL).getD 1 [],
            ((splitOnCharL '|' (trimL line)).map trimL).getD 2 [])

/-- The (date, patch) pairs of all ledger rows, read off by the same
separator scan and row loop as hasEntryInMd. -/
def entriesPairs (content : Str) : List (Str × Str) :=
  if content == [] then []
  else
    match findIdxP isSepLine (splitLinesL content) with
    | none => []
    | some sepIndex => ((splitLinesL content).drop (sepIndex + 1)).filterMap rowPairOf

/-- linkFile of grid-updater.ts: a markdown download link, or an empty cell
for a missing (or falsy) filename. -/
def linkFile (fname : Option Str) : Str :=
  match fname with
  | some f => if f == [] then [] else strOf "[🔗 Download](grids/" ++ f ++ [')']
  | none => []

/-- The row template of grid-updater.ts:
a pipe table row | date | patch | cell | cell | cell |. -/
def renderRow (date patch c1 c2 c3 : Str) : Str :=
  strOf "| " ++ date ++ strOf " | " ++ patch ++ strOf " | " ++ c1 ++
    strOf " | " ++ c2 ++ strOf " | " ++ c3 ++ strOf " |"

/-- The ledger header row written by grid-updater.ts. -/
def tableHeader : Str :=
  strOf "| Date | Patch | D2PT Rating | High Winrate | Most Played |"

/-- The ledger separator row written by grid-updater.ts. -/
def tableSep : Str :=
  strOf "| ---- | ----- | ----------- | ------------ | ----------- |"

/-- A freshly synthesized ledger: header, separator and a single row. -/
def freshTable (row : Str) : Str :=
  tableHeader ++ '\n' :: tableSep ++ '\n' :: row ++ ['\n']

/-- The grids.md insertion step of grid-updater.ts: synthesize a table when
the file is empty, append a new table block when no separator is found, and
otherwise splice the new row right after the separator line. -/
def insertRowIntoMd (mdContent newRow : Str) : Str :=
  if mdContent == [] then freshTable newRow
  else
    match findIdxP isSepLine (splitLinesL mdContent) with
    | none => joinNL (splitLinesL mdContent) ++ strOf "\n\n" ++ freshTable newRow
    | some sepIndex =>
      joinNL ((splitLinesL mdContent).take (sepIndex + 1) ++
        newRow :: (splitLinesL mdContent).drop (sepIndex + 1))

/-! ## Metadata store (last_update.txt and README.md) -/

/-- The parsed 2-line last_update.txt sidecar. -/
structure LastUpd where
  patch : Str
  date : Str
deriving DecidableEq

/-- readLastUpdateFile of grid-updater.ts: a missing file or a file whose
first two trimmed lines are not both nonempty yields none. -/
def readLastUpdateFile (txt : Option Str) : Option LastUpd :=
  match txt with
  | none => none
  | some t =>
    if trimL ((splitLinesL t).getD 0 []) == [] ||
        trimL ((splitLinesL t).getD 1 []) == [] then none
    else some ⟨trimL ((splitLinesL t).getD 0 []), trimL ((splitLinesL t).getD 1 [])⟩

/-- writeLastUpdateFile of grid-updater.ts: patch line, date line. -/
def writeLastUpdateFile (patch date : Str) : Str :=
  patch ++ '\n' :: date ++ ['\n']

/-- The README metadata line written by grid-updater.ts. -/
def lastUpdateLine (patch date : Str) : Str :=
  strOf "**Last update**: " ++ date ++ strOf " • Patch " ++ patch ++
    strOf " — see [grids.md](./grids.md)"

/-- The minimal README created when README.md does not exist. -/
def minimalReadme (patch date : Str) : Str :=
  strOf "# d2pt-grid-updater\n\n" ++ lastUpdateLine patch date ++ ['\n']

/-- The insertion position used when no metadata line exists: right after
the first top-level heading, else at the end of the document. -/
def insertAfterH1 (lines : List Str) (lu : Str) : List Str :=
  match findIdxP isH1 lines with
  | some titleIndex =>
    lines.take (titleIndex + 1) ++ [] :: lu :: lines.drop (titleIndex + 1)
  | none => lines ++ [[], lu]

/-- updateReadmeLastUpdate of grid-updater.ts: create a minimal README when
absent, replace the first metadata line in place when present, and insert
after the first heading (or append) otherwise. -/
def updateReadmeLastUpdate (patch date : Str) (readme : Option Str) : Str :=
  match readme with
  | none => minimalReadme patch date
  | some r =>
    match findIdxP patAt (splitLinesL r) with
    | some i => joinNL ((splitLinesL r).set i (lastUpdateLine patch date))
    | none => joinNL (insertAfterH1 (splitLinesL r) (lastUpdateLine patch date))

/-- ensureReadmeHasLastUpdate of grid-updater.ts: create a minimal README
when absent, return the document unchanged when the multiline metadata-line
pattern matches anywhere, and otherwise insert the line. -/
def ensureReadmeHasLastUpdate (patch date : Str) (readme : Option Str) : Str :=
  match readme with
  | none => minimalReadme patch date
  | some r =>
    if containsM r then r
    else joinNL (insertAfterH1 (splitLinesL r) (lastUpdateLine patch date))

/-! ## The reconciliation engine (main of grid-updater.ts) -/

/-- The sentinel date kept when the scraped date text does not parse. -/
def unknownDate : Str := strOf "unknown_date"

/-- The sentinel raw patch kept when the metadata text does not match. -/
def unknownPatchRaw : Str := strOf "unknown_patch_raw"

/-- What one browser session observed: whether the two structural parent
divs were found, the scraped release metadata (with sentinels when the
metadata text was absent or unparsable), how many download buttons the
trigger container holds, and the three suggested download filenames. -/
structure Scrape where
  metaFound : Bool
  dateStr : Str
  rawPatch : Str
  patchStr : Str
  parentFound : Bool
  buttonCount : Nat
  name0 : Str
  name1 : Str
  name2 : Str

/-- The durable bookkeeping files; none models a missing file. -/
structure FilesState where
  grids : Option Str
  lastUpdate : Option Str
  readme : Option Str
deriving DecidableEq

/-- A finished run: the resulting files and how many artifact downloads the
run performed. -/
structure RunResult where
  files : FilesState
  downloads : Nat
deriving DecidableEq

/-- suggestedFilename().replace(/\.json$/, ""): strip one trailing ".json". -/
def stripJsonSuffix (s : Str) : Str :=
  if List.isSuffixOf (strOf ".json") s then s.take (s.length - 5) else s

/-- path.basename, shallowly: the component after the last slash.  (Node
also ignores trailing slashes; the filenames built below always end in
".json", so that case never arises.) -/
def jsBasename (s : Str) : Str := (splitOnCharL '/' s).getLastD []

/-- The saved artifact filename: basename of
./grids/(suggested-stripped)_(date)_(patchSlug).json. -/
def savedFileName (suggested date patchS : Str) : Str :=
  jsBasename (strOf "./grids/" ++ stripJsonSuffix suggested ++
    '_' :: date ++ '_' :: patchS ++ strOf ".json")

/-- The patch resolved by the repair and force-sync branches: the ledger's
first-row patch cell when truthy, else the scraped raw patch unless it is
the sentinel. -/
def resolvedPatch (sc : Scrape) (mdContent : Str) : Option Str :=
  jsOrO ((parseFirstRowFromMd mdContent).bind MdRow.patch)
    (if sc.rawPatch == unknownPatchRaw then none else some sc.rawPatch)

/-- The date resolved by the repair and force-sync branches: the ledger's
first-row date cell when truthy, else the scraped date unless it is the
sentinel. -/
def resolvedDate (sc : Scrape) (mdContent : Str) : Option Str :=
  jsOrO ((parseFirstRowFromMd mdContent).bind MdRow.date)
    (if sc.dateStr == unknownDate then none else some sc.dateStr)

/-- "p" + patch.replace(/\./g, "_"): the filesystem-safe patch slug. -/
def patchSlug (patch : Str) : Str :=
  'p' :: patch.map (fun c => if c = '.' then '_' else c)

/-- The repair branch of main: when grids.md has no parsable first row and
a usable date/patch exists, attempt a reconstruction (guarded by the
download-button count); afterwards rewrite both sidecars from the resolved
date/patch when usable, else change nothing. -/
def runRepair (sc : Scrape) (st : FilesState) (mdContent : Str) : RunResult :=
  let pv := resolvedPatch sc mdContent
  let dv := resolvedDate sc mdContent
  let needsRebuild := (parseFirstRowFromMd mdContent).isNone
  let rebuilt : Option Str × Nat :=
    if needsRebuild && truthy pv && truthy dv then
      if sc.buttonCount < 3 then (st.grids, 0)
      else
        let effDate := if sc.dateStr == unknownDate then dv.getD [] else sc.dateStr
        let effPatchS :=
          if sc.patchStr == strOf "punknown_patch_raw" then
            patchSlug (if truthy pv then pv.getD [] else strOf "unknown")
          else sc.patchStr
        let s0 := savedFileName sc.name0 effDate effPatchS
        let s1 := savedFileName sc.name1 effDate effPatchS
        let s2 := savedFileName sc.name2 effDate effPatchS
        let row := renderRow effDate (pv.getD [])
          (linkFile (some s0)) (linkFile (some s1)) (linkFile (some s2))
        (some (freshTable row), 3)
    else (st.grids, 0)
  if truthy pv && truthy dv then
    ⟨⟨rebuilt.1, some (writeLastUpdateFile (pv.getD []) (dv.getD [])),
      some (updateReadmeLastUpdate (pv.getD []) (dv.getD []) st.readme)⟩, rebuilt.2⟩
  else ⟨⟨rebuilt.1, st.lastUpdate, st.readme⟩, rebuilt.2⟩

/-- is_same of main: the sidecar matches the scraped date and either patch
representation. -/
def isSameB (sc : Scrape) (st : FilesState) : Bool :=
  match readLastUpdateFile st.lastUpdate with
  | some lr =>
    lr.date == sc.dateStr && (lr.patch == sc.rawPatch || lr.patch == sc.patchStr)
  | none => false

/-- entry_exists of main: the ledger already has a row for this release. -/
def entryExistsB (sc : Scrape) (st : FilesState) : Bool :=
  hasEntryInMd (st.grids.getD []) sc.dateStr sc.rawPatch (some sc.patchStr)

/-- The new ledger row built by the normal download path. -/
def normalNewRow (sc : Scrape) : Str :=
  renderRow sc.dateStr sc.rawPatch
    (linkFile (some (savedFileName sc.name0 sc.dateStr sc.patchStr)))
    (linkFile (some (savedFileName sc.name1 sc.dateStr sc.patchStr)))
    (linkFile (some (savedFileName sc.name2 sc.dateStr sc.patchStr)))

/-- main of grid-updater.ts as a state transformer: both structural div
checks, the repair branch, the skip/metadata-refresh branch, the
download-button check, the three downloads, the force re-sync branch and
the insert-if-missing branch, in source order. -/
def runMain (force repair : Bool) (sc : Scrape) (st : FilesState) : RunResult :=
  if !sc.metaFound then ⟨st, 0⟩
  else if !sc.parentFound then ⟨st, 0⟩
  else
    let mdContent := st.grids.getD []
    if repair then runRepair sc st mdContent
    else
      if !force && entryExistsB sc st then
        if isSameB sc st then
          match readLastUpdateFile st.lastUpdate with
          | some lr =>
            ⟨⟨st.grids, st.lastUpdate,
              some (ensureReadmeHasLastUpdate lr.patch lr.date st.readme)⟩, 0⟩
          | none =>
            ⟨⟨st.grids, st.lastUpdate,
              some (ensureReadmeHasLastUpdate sc.rawPatch sc.dateStr st.readme)⟩, 0⟩
        else
          ⟨⟨st.grids, some (writeLastUpdateFile sc.rawPatch sc.dateStr),
            some (updateReadmeLastUpdate sc.rawPatch sc.dateStr st.readme)⟩, 0⟩
      else if sc.buttonCount < 3 then ⟨st, 0⟩
      else
        if force && (isSameB sc st || entryExistsB sc st) then
          let pv := resolvedPatch sc mdContent
          let dv := resolvedDate sc mdContent
          if truthy pv && truthy dv then
            ⟨⟨st.grids, st.lastUpdate,
              some (updateReadmeLastUpdate (pv.getD []) (dv.getD []) st.readme)⟩, 3⟩
          else ⟨st, 3⟩
        else
          if !entryExistsB sc st then
            ⟨⟨some (insertRowIntoMd mdContent (normalNewRow sc)),
              some (writeLastUpdateFile sc.rawPatch sc.dateStr),
              some (updateReadmeLastUpdate sc.rawPatch sc.dateStr st.readme)⟩, 3⟩
          else ⟨st, 3⟩

/-! ## Lemmas about the text primitives -/

def lineClean (s : Str) : Prop := '\n' ∉ s ∧ '\r' ∉ s

instance decLineClean (s : Str) : Decidable (lineClean s) :=
  inferInstanceAs (Decidable (_ ∧ _))

theorem splitLinesL_nil : splitLinesL [] = [[]] := rfl

theorem splitLinesL_crlf (rest : Str) : splitLinesL ('\r' :: '\n' :: rest) = [] :: splitLinesL rest := rfl

theorem splitLinesL_lf (rest : Str) : splitLinesL ('\n' :: rest) = [] :: splitLinesL rest := rfl

theorem splitLinesL_other (c : Char) (rest : Str) (h1 : c ≠ '\n')
    (h2 : c = '\r' → rest.head? ≠ some '\n') :
    splitLinesL (c :: rest) =
      match splitLinesL rest with
      | l :: ls => (c :: l) :: ls
      | [] => [[c]] := by
  conv_lhs => unfold splitLinesL
  rcases rest with _ | ⟨c2, rest2⟩
  · simp [h1]
  · by_cases hc : c = '\r'
    · subst hc
      have hc2 : c2 ≠ '\n' := by simpa using h2 rfl
      simp [hc2]
    · by_cases hc2 : c2 = '\n' <;> simp [h1, hc, hc2]

theorem splitLinesL_ne_nil (s : Str) : splitLinesL s ≠ [] := by
  induction s using splitLinesL.induct <;> simp_all [splitLinesL]

theorem splitLinesL_single (s : Str) (h : lineClean s) : splitLinesL s = [s] := by
  induction s with
  | nil => rfl
  | cons c rest ih =>
    have h1 : c ≠ '\n' := fun hh => h.1 (hh ▸ List.mem_cons_self c rest)
    have h2 : c ≠ '\r' := fun hh => h.2 (hh ▸ List.mem_cons_self c rest)
    rw [splitLinesL_other c rest h1 (fun hh => absurd hh h2)]
    rw [ih ⟨fun hh => h.1 (List.mem_cons_of_mem c hh),
            fun hh => h.2 (List.mem_cons_of_mem c hh)⟩]

theorem splitLinesL_append_lf (s t : Str) (h : lineClean s) :
    splitLinesL (s ++ '\n' :: t) = s :: splitLinesL t := by
  induction s with
  | nil => simp [splitLinesL_lf]
  | cons c rest ih =>
    have h1 : c ≠ '\n' := fun hh => h.1 (hh ▸ List.mem_cons_self c rest)
    have h2 : c ≠ '\r' := fun hh => h.2 (hh ▸ List.mem_cons_self c rest)
    rw [List.cons_append, splitLinesL_other c _ h1 (fun hh => absurd hh h2)]
    rw [ih ⟨fun hh => h.1 (List.mem_cons_of_mem c hh),
            fun hh => h.2 (List.mem_cons_of_mem c hh)⟩]

theorem mem_splitLinesL_no_lf (s l : Str) (hm : l ∈ splitLinesL s) : '\n' ∉ l := by
  induction s using splitLinesL.induct generalizing l with
  | case1 =>
    rw [splitLinesL_nil, List.mem_singleton] at hm
    simp [hm]
  | case2 rest ih =>
    rw [splitLinesL_crlf] at hm
    rcases List.mem_cons.mp hm with hh | hh
    · simp [hh]
    · exact ih l hh
  | case3 rest ih =>
    rw [splitLinesL_lf] at hm
    rcases List.mem_cons.mp hm with hh | hh
    · simp [hh]
    · exact ih l hh
  | case4 c rest hne1 hne2 l2 ls2 heq ih =>
    rw [splitLinesL_other c rest (fun hh => hne2 hh)
      (by
        intro hcr hhd
        rcases rest with _ | ⟨c2, r2⟩
        · simp at hhd
        · simp at hhd
          exact hne1 r2 hcr (by rw [hhd])), heq] at hm
    rcases List.mem_cons.mp hm with hh | hh
    · subst hh
      intro hmem
      rcases List.mem_cons.mp hmem with hh2 | hh2
      · exact hne2 hh2.symm
      · exact ih l2 (heq ▸ List.mem_cons_self l2 ls2) hh2
    · exact ih l (heq ▸ List.mem_cons_of_mem l2 hh)
  | case5 c rest hne1 hne2 heq ih =>
    exact absurd heq (splitLinesL_ne_nil rest)

theorem mem_splitLinesL_no_cr (s l : Str) (hs : '\r' ∉ s) (hm : l ∈ splitLinesL s) :
    '\r' ∉ l := by
  induction s using splitLinesL.induct generalizing l with
  | case1 =>
    rw [splitLinesL_nil, List.mem_singleton] at hm
    simp [hm]
  | case2 rest ih => simp at hs
  | case3 rest ih =>
    rw [splitLinesL_lf] at hm
    rcases List.mem_cons.mp hm with hh | hh
    · simp [hh]
    · exact ih l (fun hc => hs (List.mem_cons_of_mem _ hc)) hh
  | case4 c rest hne1 hne2 l2 ls2 heq ih =>
    have hcrs : '\r' ∉ rest := fun hc => hs (List.mem_cons_of_mem _ hc)
    rw [splitLinesL_other c rest (fun hh => hne2 hh)
      (fun hcr _ => hs (hcr ▸ List.mem_cons_self c rest)), heq] at hm
    rcases List.mem_cons.mp hm with hh | hh
    · subst hh
      intro hmem
      rcases List.mem_cons.mp hmem with hh2 | hh2
      · exact hs (hh2 ▸ List.mem_cons_self c rest)
      · exact ih l2 hcrs (heq ▸ List.mem_cons_self l2 ls2) hh2
    · exact ih l hcrs (heq ▸ List.mem_cons_of_mem l2 hh)
  | case5 c rest hne1 hne2 heq ih =>
    exact absurd heq (splitLinesL_ne_nil rest)

theorem mem_splitLinesL_clean (s l : Str) (hs : '\r' ∉ s) (hm : l ∈ splitLinesL s) :
    lineClean l :=
  ⟨mem_splitLinesL_no_lf s l hm, mem_splitLinesL_no_cr s l hs hm⟩

theorem joinNL_cons (l : Str) (ls : List Str) (h : ls ≠ []) :
    joinNL (l :: ls) = l ++ '\n' :: joinNL ls := by
  rcases ls with _ | ⟨l2, ls2⟩
  · exact absurd rfl h
  · rfl

theorem splitLinesL_joinNL (L : List Str) (hne : L ≠ []) (hc : ∀ l ∈ L, lineClean l) :
    splitLinesL (joinNL L) = L := by
  induction L with
  | nil => exact absurd rfl hne
  | cons l ls ih =>
    rcases ls with _ | ⟨l2, ls2⟩
    · exact splitLinesL_single l (hc l (List.mem_cons_self l []))
    · rw [joinNL_cons l _ (by simp)]
      rw [splitLinesL_append_lf l _ (hc l (List.mem_cons_self l _))]
      rw [ih (by simp) (fun x hx => hc x (List.mem_cons_of_mem l hx))]

theorem joinNL_append (A B : List Str) (hA : A ≠ []) (hB : B ≠ []) :
    joinNL (A ++ B) = joinNL A ++ '\n' :: joinNL B := by
  induction A with
  | nil => exact absurd rfl hA
  | cons a as ih =>
    rcases as with _ | ⟨a2, as2⟩
    · rw [List.singleton_append, joinNL_cons a B hB]
      rfl
    · rw [List.cons_append, joinNL_cons a _ (by simp),
          joinNL_cons a (a2 :: as2) (by simp), ih (by simp)]
      simp

theorem findIdxP_append_some (p : Str → Bool) (A B : List Str) (k : Nat)
    (h : findIdxP p A = some k) : findIdxP p (A ++ B) = some k := by
  induction A generalizing k with
  | nil => simp [findIdxP] at h
  | cons a as ih =>
    rw [List.cons_append]
    simp only [findIdxP] at h ⊢
    by_cases ha : p a
    · simp [ha] at h ⊢
      exact h
    · simp [ha] at h ⊢
      obtain ⟨k2, hk2, hk⟩ := h
      exact ⟨k2, ih k2 hk2, hk⟩

theorem findIdxP_append_none (p : Str → Bool) (A B : List Str)
    (h : findIdxP p A = none) : findIdxP p (A ++ B) = (findIdxP p B).map (· + A.length) := by
  induction A with
  | nil => simp [findIdxP]
  | cons a as ih =>
    rw [List.cons_append]
    simp only [findIdxP] at h ⊢
    by_cases ha : p a
    · simp [ha] at h
    · simp [ha] at h ⊢
      rw [ih h]
      rcases findIdxP p B with _ | k
      · rfl
      · simp only [Option.map_some', List.length_cons]
        congr 1
  
theorem findIdxP_lt_length (p : Str → Bool) (L : List Str) (i : Nat)
    (h : findIdxP p L = some i) : i < L.length := by
  induction L generalizing i with
  | nil => simp [findIdxP] at h
  | cons a as ih =>
    simp only [findIdxP] at h
    by_cases ha : p a
    · simp [ha] at h
      simp only [List.length_cons]
      omega
    · simp [ha] at h
      obtain ⟨k2, hk2, hk⟩ := h
      have := ih k2 hk2
      simp only [List.length_cons]
      omega

theorem findIdxP_take (p : Str → Bool) (L : List Str) (i : Nat)
    (h : findIdxP p L = some i) : findIdxP p (L.take (i + 1)) = some i := by
  induction L generalizing i with
  | nil => simp [findIdxP] at h
  | cons a as ih =>
    simp only [findIdxP] at h
    by_cases ha : p a
    · simp [ha] at h
      subst h
      simp [List.take, findIdxP, ha]
    · simp [ha] at h
      obtain ⟨k2, hk2, hk⟩ := h
      subst hk
      rw [List.take_succ_cons]
      simp only [findIdxP]
      simp only [ha, if_false]
      rw [ih k2 hk2]
      rfl

theorem findIdxP_none_of_all (p : Str → Bool) (L : List Str)
    (h : ∀ l ∈ L, p l = false) : findIdxP p L = none := by
  induction L with
  | nil => rfl
  | cons a as ih =>
    simp only [findIdxP, h a (List.mem_cons_self a as)]
    simp [ih (fun l hl => h l (List.mem_cons_of_mem a hl))]

theorem splitOnCharL_ne_nil (t : Char) (s : Str) : splitOnCharL t s ≠ [] := by
  induction s with
  | nil => simp [splitOnCharL]
  | cons c rest ih =>
    simp only [splitOnCharL]
    by_cases hc : c = t
    · simp [hc]
    · simp only [hc, if_false]
      rcases hsp : splitOnCharL t rest with _ | ⟨x, xs⟩
      · simp
      · simp

theorem splitOnCharL_sep (t : Char) (rest : Str) :
    splitOnCharL t (t :: rest) = [] :: splitOnCharL t rest := by
  simp [splitOnCharL]

theorem splitOnCharL_no_sep (t : Char) (s : Str) (h : t ∉ s) :
    splitOnCharL t s = [s] := by
  induction s with
  | nil => rfl
  | cons c rest ih =>
    have hc : c ≠ t := fun hh => h (hh ▸ List.mem_cons_self c rest)
    simp only [splitOnCharL, hc, if_false]
    rw [ih (fun hh => h (List.mem_cons_of_mem c hh))]

theorem splitOnCharL_append_sep (t : Char) (xs rest : Str) (h : t ∉ xs) :
    splitOnCharL t (xs ++ t :: rest) = xs :: splitOnCharL t rest := by
  induction xs with
  | nil => simp [splitOnCharL_sep]
  | cons c cs ih =>
    have hc : c ≠ t := fun hh => h (hh ▸ List.mem_cons_self c cs)
    rw [List.cons_append]
    simp only [splitOnCharL, hc, if_false]
    rw [ih (fun hh => h (List.mem_cons_of_mem c hh))]

theorem trimL_nil : trimL [] = [] := rfl

theorem trimL_cons_ws (c : Char) (s : Str) (h : jsWs c = true) :
    trimL (c :: s) = trimL s := by
  simp [trimL, List.dropWhile_cons, h]

theorem trimL_append_ws (c : Char) (s : Str) (h : jsWs c = true) :
    trimL (s ++ [c]) = trimL s := by
  simp only [trimL, List.dropWhile_append]
  rcases hd : List.dropWhile jsWs s with _ | ⟨x, xs⟩
  · simp [List.dropWhile_cons, h]
  · simp only [List.isEmpty_cons, if_false]
    simp [List.reverse_append, List.dropWhile_cons, h]

/-! ## Lemmas about cells and rendered rows -/

/-- A well-behaved table cell: trim-invariant, no pipes, single-line. -/
def CellOk (s : Str) : Prop :=
  trimL s = s ∧ '|' ∉ s ∧ lineClean s

/-- A well-behaved date cell: also nonempty, with a head character that is
neither whitespace nor a dash (so a data row is never mistaken for a
separator row). -/
def DateOk (s : Str) : Prop :=
  CellOk s ∧ jsWs (s.headD ' ') = false ∧ s.headD ' ' ≠ '-'

instance decCellOk (s : Str) : Decidable (CellOk s) :=
  inferInstanceAs (Decidable (_ ∧ _ ∧ _))

instance decDateOk (s : Str) : Decidable (DateOk s) :=
  inferInstanceAs (Decidable (_ ∧ _ ∧ _))

theorem DateOk_ne_nil (s : Str) (h : DateOk s) : s ≠ [] := by
  intro hnil
  rw [hnil] at h
  exact absurd h.2.1 (by decide)

theorem trimL_eq_self_ends (c d : Char) (mid : Str)
    (hc : jsWs c = false) (hd : jsWs d = false) :
    trimL (c :: mid ++ [d]) = c :: mid ++ [d] := by
  have h1 : List.dropWhile jsWs (c :: mid ++ [d]) = c :: mid ++ [d] := by
    rw [List.cons_append, List.dropWhile_cons]
    simp [hc]
  have h2 : (c :: mid ++ [d]).reverse = d :: (mid.reverse ++ [c]) := by simp
  have h3 : List.dropWhile jsWs (d :: (mid.reverse ++ [c])) = d :: (mid.reverse ++ [c]) := by
    rw [List.dropWhile_cons]
    simp [hd]
  rw [trimL, h1, h2, h3]
  simp

theorem trimL_pad (s : Str) : trimL (' ' :: s ++ [' ']) = trimL s := by
  rw [show ' ' :: s ++ [' '] = ' ' :: (s ++ [' ']) from rfl]
  rw [trimL_cons_ws ' ' _ (by decide), trimL_append_ws ' ' _ (by decide)]

theorem map_pipeToSpace_id (s : Str) (h : '|' ∉ s) : s.map pipeToSpace = s := by
  induction s with
  | nil => rfl
  | cons c cs ih =>
    have hc : c ≠ '|' := fun hh => h (hh ▸ List.mem_cons_self c cs)
    simp only [List.map_cons, pipeToSpace, hc, if_false]
    rw [ih (fun hh => h (List.mem_cons_of_mem c hh))]

theorem renderRow_eq (d p c1 c2 c3 : Str) :
    renderRow d p c1 c2 c3 =
      '|' :: ' ' :: (d ++ ' ' :: '|' :: ' ' :: (p ++ ' ' :: '|' :: ' ' ::
        (c1 ++ ' ' :: '|' :: ' ' :: (c2 ++ ' ' :: '|' :: ' ' ::
          (c3 ++ [' ', '|']))))) := by
  simp [renderRow, strOf, List.append_assoc]

theorem renderRow_split_form (d p c1 c2 c3 : Str) :
    renderRow d p c1 c2 c3 =
      '|' :: ((' ' :: d ++ [' ']) ++ '|' :: ((' ' :: p ++ [' ']) ++ '|' ::
        (' ' :: (c1 ++ ' ' :: '|' :: ' ' :: (c2 ++ ' ' :: '|' :: ' ' ::
          (c3 ++ [' ', '|'])))))) := by
  rw [renderRow_eq]
  simp [List.append_assoc]

theorem splitPipe_renderRow (d p c1 c2 c3 : Str) (hd : '|' ∉ d) (hp : '|' ∉ p) :
    splitOnCharL '|' (renderRow d p c1 c2 c3) =
      [] :: (' ' :: d ++ [' ']) :: (' ' :: p ++ [' ']) ::
        splitOnCharL '|' (' ' :: (c1 ++ ' ' :: '|' :: ' ' ::
          (c2 ++ ' ' :: '|' :: ' ' :: (c3 ++ [' ', '|'])))) := by
  rw [renderRow_split_form]
  rw [show ('|' :: ((' ' :: d ++ [' ']) ++ '|' :: ((' ' :: p ++ [' ']) ++ '|' :: _)))
        = '|' :: ((' ' :: d ++ [' ']) ++ '|' :: ((' ' :: p ++ [' ']) ++ '|' :: _)) from rfl]
  rw [splitOnCharL_sep]
  rw [splitOnCharL_append_sep '|' _ _ (by
    intro hmem
    rcases List.mem_cons.mp hmem with hh | hh
    · exact absurd hh.symm (by decide)
    · rcases List.mem_append.mp hh with hh2 | hh2
      · exact hd hh2
      · exact absurd (List.mem_singleton.mp hh2).symm (by decide))]
  rw [splitOnCharL_append_sep '|' _ _ (by
    intro hmem
    rcases List.mem_cons.mp hmem with hh | hh
    · exact absurd hh.symm (by decide)
    · rcases List.mem_append.mp hh with hh2 | hh2
      · exact hp hh2
      · exact absurd (List.mem_singleton.mp hh2).symm (by decide))]

theorem trimL_renderRow (d p c1 c2 c3 : Str) :
    trimL (renderRow d p c1 c2 c3) = renderRow d p c1 c2 c3 := by
  have h : renderRow d p c1 c2 c3 =
      '|' :: (' ' :: (d ++ ' ' :: '|' :: ' ' :: (p ++ ' ' :: '|' :: ' ' ::
        (c1 ++ ' ' :: '|' :: ' ' :: (c2 ++ ' ' :: '|' :: ' ' ::
          (c3 ++ [' '])))))) ++ ['|'] := by
    rw [renderRow_eq]
    simp [List.append_assoc]
  rw [h, trimL_eq_self_ends '|' '|' _ (by decide) (by decide)]

theorem rowPairOf_nil : rowPairOf [] = none := rfl

theorem rowHit_nil (q a : Str) (b : Option Str) : rowHit q a b [] = false := rfl

theorem renderRow_beq_nil (d p c1 c2 c3 : Str) :
    (renderRow d p c1 c2 c3 == ([] : Str)) = false := by
  rw [beq_eq_false_iff_ne, renderRow_eq]
  exact List.cons_ne_nil _ _

theorem renderRow_beq_pipe (d p c1 c2 c3 : Str) :
    (renderRow d p c1 c2 c3 == ['|']) = false := by
  rw [beq_eq_false_iff_ne, renderRow_eq]
  intro h
  injection h with h1 h2
  exact List.cons_ne_nil _ _ h2

theorem cols_renderRow (d p c1 c2 c3 : Str) (hd : '|' ∉ d) (hp : '|' ∉ p)
    (htd : trimL d = d) (htp : trimL p = p) :
    (splitOnCharL '|' (renderRow d p c1 c2 c3)).map trimL =
      [] :: d :: p ::
        (splitOnCharL '|' (' ' :: (c1 ++ ' ' :: '|' :: ' ' ::
          (c2 ++ ' ' :: '|' :: ' ' :: (c3 ++ [' ', '|']))))).map trimL := by
  rw [splitPipe_renderRow d p c1 c2 c3 hd hp]
  simp only [List.map_cons]
  rw [trimL_nil, trimL_pad, trimL_pad, htd, htp]

theorem rowPairOf_renderRow (d p c1 c2 c3 : Str) (hd : CellOk d) (hp : CellOk p) :
    rowPairOf (renderRow d p c1 c2 c3) = some (d, p) := by
  rw [rowPairOf, trimL_renderRow]
  rw [if_neg (by rw [renderRow_beq_nil, renderRow_beq_pipe]; simp)]
  rw [cols_renderRow d p c1 c2 c3 hd.2.1 hp.2.1 hd.1 hp.1]
  rw [if_neg (by simp only [List.length_cons]; omega)]
  simp [List.getD]

theorem rowHit_renderRow (q a : Str) (b : Option Str) (d p c1 c2 c3 : Str)
    (hd : CellOk d) (hp : CellOk p) :
    rowHit q a b (renderRow d p c1 c2 c3) =
      ((d == q) && ((p == a) ||
        (match b with | some bb => p == bb | none => false))) := by
  simp only [rowHit]
  rw [trimL_renderRow]
  rw [if_neg (by rw [renderRow_beq_nil, renderRow_beq_pipe]; simp)]
  rw [cols_renderRow d p c1 c2 c3 hd.2.1 hp.2.1 hd.1 hp.1]
  rw [if_neg (by simp only [List.length_cons]; omega)]
  simp [List.getD]

theorem isSepLine_renderRow (d p c1 c2 c3 : Str) (hd : DateOk d) :
    isSepLine (renderRow d p c1 c2 c3) = false := by
  obtain ⟨⟨htrim, hpipe, hclean⟩, hws, hdash⟩ := hd
  rcases d with _ | ⟨h, t⟩
  · exact absurd hws (by decide)
  simp only [List.headD] at hws hdash
  rw [isSepLine, renderRow_eq]
  simp only [List.map_cons, List.map_append]
  rw [show pipeToSpace '|' = ' ' from rfl, show pipeToSpace ' ' = ' ' from rfl]
  have hne : h ≠ '|' := fun hh => hpipe (hh ▸ List.mem_cons_self h t)
  have hph : pipeToSpace h = h := by simp [pipeToSpace, hne]
  rw [hph]
  rw [List.dropWhile_cons_of_pos (by decide), List.dropWhile_cons_of_pos (by decide)]
  rw [List.cons_append, List.dropWhile_cons_of_neg (by simp [hws])]
  simp [List.take_cons, hdash]

theorem isSepLine_header : isSepLine tableHeader = false := by decide

theorem isSepLine_tableSep : isSepLine tableSep = true := by decide

theorem isSepLine_nil : isSepLine [] = false := by decide

/-! ## The canonical ledger shape maintained by the engine -/

/-- The concatenated row lines of a ledger, each followed by a newline. -/
def rowsBlock (rows : List Str) : Str :=
  rows.foldr (fun r acc => r ++ '\n' :: acc) []

/-- The text of a ledger holding the given row lines: header, separator,
then the rows, one per line. -/
def ledgerString (rows : List Str) : Str :=
  tableHeader ++ '\n' :: (tableSep ++ '\n' :: rowsBlock rows)

theorem freshTable_eq_ledger (row : Str) : freshTable row = ledgerString [row] := by
  simp [freshTable, ledgerString, rowsBlock, List.append_assoc]

theorem splitLinesL_rowsBlock (rows : List Str) (h : ∀ r ∈ rows, lineClean r) :
    splitLinesL (rowsBlock rows) = rows ++ [[]] := by
  induction rows with
  | nil => rfl
  | cons r rs ih =>
    show splitLinesL (r ++ '\n' :: rowsBlock rs) = _
    rw [splitLinesL_append_lf r _ (h r (List.mem_cons_self r rs))]
    rw [ih (fun x hx => h x (List.mem_cons_of_mem r hx))]
    rfl

theorem lineClean_header : lineClean tableHeader := by
  constructor <;> decide

theorem lineClean_tableSep : lineClean tableSep := by
  constructor <;> decide

theorem splitLinesL_ledgerString (rows : List Str) (h : ∀ r ∈ rows, lineClean r) :
    splitLinesL (ledgerString rows) = tableHeader :: tableSep :: (rows ++ [[]]) := by
  rw [ledgerString]
  rw [splitLinesL_append_lf _ _ lineClean_header]
  rw [splitLinesL_append_lf _ _ lineClean_tableSep]
  rw [splitLinesL_rowsBlock rows h]

theorem findSep_ledgerLines (X : List Str) :
    findIdxP isSepLine (tableHeader :: tableSep :: X) = some 1 := by
  simp [findIdxP, isSepLine_header, isSepLine_tableSep]

theorem ledgerString_ne_nil (rows : List Str) : ledgerString rows ≠ [] := by
  rw [ledgerString]
  intro h
  rcases List.append_eq_nil.mp h with ⟨h1, h2⟩
  exact List.cons_ne_nil _ _ h2

theorem hasEntryInMd_ledgerString (rows : List Str) (q a : Str) (b : Option Str)
    (h : ∀ r ∈ rows, lineClean r) :
    hasEntryInMd (ledgerString rows) q a b = rows.any (rowHit q a b) := by
  rw [hasEntryInMd]
  rw [if_neg (by simp [ledgerString_ne_nil rows])]
  rw [splitLinesL_ledgerString rows h, findSep_ledgerLines]
  show ((rows ++ [[]]).any (rowHit q a b)) = _
  rw [List.any_append]
  simp [rowHit_nil]

theorem entriesPairs_ledgerString (rows : List Str) (h : ∀ r ∈ rows, lineClean r) :
    entriesPairs (ledgerString rows) = rows.filterMap rowPairOf := by
  rw [entriesPairs]
  rw [if_neg (by simp [ledgerString_ne_nil rows])]
  rw [splitLinesL_ledgerString rows h, findSep_ledgerLines]
  show (rows ++ [[]]).filterMap rowPairOf = _
  rw [List.filterMap_append]
  simp [rowPairOf_nil]

theorem joinNL_rows_blank (rows : List Str) : joinNL (rows ++ [[]]) = rowsBlock rows := by
  induction rows with
  | nil => rfl
  | cons r rs ih =>
    rw [List.cons_append, joinNL_cons r _ (by simp), ih]
    rfl

theorem insertRow_nil (row : Str) : insertRowIntoMd [] row = ledgerString [row] := by
  rw [insertRowIntoMd, if_pos (by rfl), freshTable_eq_ledger]

theorem insertRow_ledgerString (rows : List Str) (row : Str)
    (h : ∀ r ∈ rows, lineClean r) :
    insertRowIntoMd (ledgerString rows) row = ledgerString (row :: rows) := by
  rw [insertRowIntoMd]
  rw [if_neg (by simp [ledgerString_ne_nil rows])]
  rw [splitLinesL_ledgerString rows h, findSep_ledgerLines]
  show joinNL (List.take 2 (tableHeader :: tableSep :: (rows ++ [[]])) ++
    row :: List.drop 2 (tableHeader :: tableSep :: (rows ++ [[]]))) = _
  show joinNL (tableHeader :: tableSep :: row :: (rows ++ [[]])) = _
  rw [joinNL_cons _ _ (by simp), joinNL_cons _ _ (by simp),
      joinNL_cons _ _ (by simp [List.append_eq_nil]), joinNL_rows_blank]
  rw [ledgerString]
  rfl

/-! ## Splicing a row into an arbitrary ledger -/

theorem lineClean_append (a b : Str) (ha : lineClean a) (hb : lineClean b) :
    lineClean (a ++ b) := by
  constructor
  · intro h
    rcases List.mem_append.mp h with h1 | h1
    · exact ha.1 h1
    · exact hb.1 h1
  · intro h
    rcases List.mem_append.mp h with h1 | h1
    · exact ha.2 h1
    · exact hb.2 h1

theorem mem_renderRow (x : Char) (d p c1 c2 c3 : Str)
    (hx : x ∈ renderRow d p c1 c2 c3) :
    x ∈ d ∨ x ∈ p ∨ x ∈ c1 ∨ x ∈ c2 ∨ x ∈ c3 ∨ x = ' ' ∨ x = '|' := by
  rw [renderRow_eq] at hx
  simp only [List.mem_cons, List.mem_append, List.mem_singleton] at hx
  tauto

theorem lineClean_renderRow (d p c1 c2 c3 : Str) (hd : lineClean d)
    (hp : lineClean p) (h1 : lineClean c1) (h2 : lineClean c2) (h3 : lineClean c3) :
    lineClean (renderRow d p c1 c2 c3) := by
  constructor
  · intro h
    rcases mem_renderRow '\n' d p c1 c2 c3 h with hh | hh | hh | hh | hh | hh | hh
    exacts [hd.1 hh, hp.1 hh, h1.1 hh, h2.1 hh, h3.1 hh,
      absurd hh (by decide), absurd hh (by decide)]
  · intro h
    rcases mem_renderRow '\r' d p c1 c2 c3 h with hh | hh | hh | hh | hh | hh | hh
    exacts [hd.2 hh, hp.2 hh, h1.2 hh, h2.2 hh, h3.2 hh,
      absurd hh (by decide), absurd hh (by decide)]

theorem drop_len_append_cons (A : List Str) (x : Str) (B : List Str) (n : Nat)
    (h : A.length = n) : (A ++ x :: B).drop n = x :: B := by
  subst h
  exact List.drop_left A (x :: B)

theorem splitLinesL_insertRow (md row : Str) (i : Nat)
    (hcr : '\r' ∉ md)
    (hsep : findIdxP isSepLine (splitLinesL md) = some i)
    (hrow : lineClean row) :
    splitLinesL (insertRowIntoMd md row) =
      (splitLinesL md).take (i + 1) ++ row :: (splitLinesL md).drop (i + 1) := by
  have hmdne : md ≠ [] := by
    intro h
    subst h
    rw [splitLinesL_nil] at hsep
    simp [findIdxP, isSepLine_nil] at hsep
  rw [insertRowIntoMd, if_neg (by simp [hmdne]), hsep]
  apply splitLinesL_joinNL
  · simp
  · intro l hl
    rcases List.mem_append.mp hl with h1 | h1
    · exact mem_splitLinesL_clean md l hcr (List.take_subset _ _ h1)
    · rcases List.mem_cons.mp h1 with h2 | h2
      · exact h2 ▸ hrow
      · exact mem_splitLinesL_clean md l hcr (List.drop_subset _ _ h2)

theorem insertRow_no_sep (md row : Str)
    (hmdne : md ≠ [])
    (hsep : findIdxP isSepLine (splitLinesL md) = none) :
    insertRowIntoMd md row =
      joinNL (splitLinesL md ++ [[], tableHeader, tableSep, row, []]) := by
  rw [insertRowIntoMd, if_neg (by simp [hmdne]), hsep]
  rw [joinNL_append _ _ (splitLinesL_ne_nil md) (by simp)]
  rw [show strOf "\n\n" = ['\n', '\n'] from rfl]
  simp [joinNL, freshTable, List.append_assoc]

theorem splitLinesL_insertRow_no_sep (md row : Str)
    (hcr : '\r' ∉ md) (hmdne : md ≠ [])
    (hsep : findIdxP isSepLine (splitLinesL md) = none)
    (hrow : lineClean row) :
    splitLinesL (insertRowIntoMd md row) =
      splitLinesL md ++ [[], tableHeader, tableSep, row, []] := by
  rw [insertRow_no_sep md row hmdne hsep]
  apply splitLinesL_joinNL
  · simp
  · intro l hl
    rcases List.mem_append.mp hl with h1 | h1
    · exact mem_splitLinesL_clean md l hcr h1
    · simp only [List.mem_cons, List.not_mem_nil, or_false] at h1
      rcases h1 with h | h | h | h | h
      · simp [h, lineClean]
      · exact h ▸ lineClean_header
      · exact h ▸ lineClean_tableSep
      · exact h ▸ hrow
      · simp [h, lineClean]

theorem hasEntryInMd_insertRow (md : Str) (d p c1 c2 c3 : Str) (b : Option Str)
    (hcr : '\r' ∉ md) (hd : DateOk d) (hp : CellOk p)
    (hc1 : lineClean c1) (hc2 : lineClean c2) (hc3 : lineClean c3) :
    hasEntryInMd (insertRowIntoMd md (renderRow d p c1 c2 c3)) d p b = true := by
  have hrowclean : lineClean (renderRow d p c1 c2 c3) :=
    lineClean_renderRow d p c1 c2 c3 hd.1.2.2 hp.2.2 hc1 hc2 hc3
  have hrowhit : rowHit d p b (renderRow d p c1 c2 c3) = true := by
    rw [rowHit_renderRow d p b d p c1 c2 c3 hd.1 hp]
    simp
  by_cases hmd : md = []
  · subst hmd
    rw [insertRow_nil]
    rw [hasEntryInMd_ledgerString _ _ _ _ (by
      intro r hr
      rw [List.mem_singleton.mp hr]
      exact hrowclean)]
    simp [hrowhit]
  · cases hsep : findIdxP isSepLine (splitLinesL md) with
    | some i =>
      have hsplit := splitLinesL_insertRow md _ i hcr hsep hrowclean
      have hlen : ((splitLinesL md).take (i + 1)).length = i + 1 := by
        rw [List.length_take]
        have := findIdxP_lt_length isSepLine (splitLinesL md) i hsep
        omega
      have hne : insertRowIntoMd md (renderRow d p c1 c2 c3) ≠ [] := by
        intro h
        have hlc := congrArg List.length hsplit
        rw [h, splitLinesL_nil] at hlc
        simp only [List.length_append, List.length_cons] at hlc
        rw [hlen] at hlc
        simp at hlc
        omega
      rw [hasEntryInMd, if_neg (by simp [hne]), hsplit]
      rw [findIdxP_append_some _ _ _ i (findIdxP_take _ _ _ hsep)]
      show (((splitLinesL md).take (i + 1) ++ renderRow d p c1 c2 c3 ::
        (splitLinesL md).drop (i + 1)).drop (i + 1)).any (rowHit d p b) = true
      rw [drop_len_append_cons _ _ _ _ hlen]
      simp [hrowhit]
    | none =>
      have hsplit := splitLinesL_insertRow_no_sep md _ hcr hmd hsep hrowclean
      have hne : insertRowIntoMd md (renderRow d p c1 c2 c3) ≠ [] := by
        intro h
        rw [h, splitLinesL_nil] at hsplit
        have := congrArg List.length hsplit
        simp at this
      rw [hasEntryInMd, if_neg (by simp [hne]), hsplit]
      rw [findIdxP_append_none _ _ _ hsep]
      rw [show findIdxP isSepLine [[], tableHeader, tableSep,
            renderRow d p c1 c2 c3, []] = some 2 by
        simp [findIdxP, isSepLine_nil, isSepLine_header, isSepLine_tableSep]]
      show ((splitLinesL md ++ [[], tableHeader, tableSep,
        renderRow d p c1 c2 c3, []]).drop (2 + (splitLinesL md).length + 1)).any
          (rowHit d p b) = true
      rw [show 2 + (splitLinesL md).length + 1 = (splitLinesL md).length + 3 by omega]
      rw [List.drop_append 3]
      simp [hrowhit]

/-! ## The metadata-line pattern -/

theorem patAt_prefix (rest : Str) :
    patAt (strOf "**Last update**: " ++ rest) = true := rfl

theorem patAt_lastUpdateLine (patch date : Str) :
    patAt (lastUpdateLine patch date) = true := by
  have h : lastUpdateLine patch date =
      strOf "**Last update**: " ++ (date ++ (strOf " • Patch " ++ (patch ++
        strOf " — see [grids.md](./grids.md)"))) := by
    simp [lastUpdateLine, List.append_assoc]
  rw [h, patAt_prefix]

theorem dropWhile_append_ne (q : Char → Bool) (l t : List Char)
    (h : l.dropWhile q ≠ []) :
    (l ++ t).dropWhile q = l.dropWhile q ++ t := by
  rw [List.dropWhile_append]
  simp [List.isEmpty_iff, h]

theorem takeWhile_append_ne (q : Char → Bool) (l t : List Char)
    (h : l.dropWhile q ≠ []) :
    (l ++ t).takeWhile q = l.takeWhile q := by
  rw [List.takeWhile_append]
  have hlen : (l.takeWhile q).length + (l.dropWhile q).length = l.length := by
    have h2 := congrArg List.length (List.takeWhile_append_dropWhile (p := q) (l := l))
    rw [List.length_append] at h2
    exact h2
  have : (l.dropWhile q).length ≠ 0 := by
    simpa [List.length_eq_zero] using h
  rw [if_neg (by omega)]

theorem ciStrip_append (pat s t r : Str) (h : ciStrip pat s = some r) :
    ciStrip pat (s ++ t) = some (r ++ t) := by
  induction pat generalizing s with
  | nil =>
    simp [ciStrip] at h
    simp [ciStrip, h]
  | cons pc pcs ih =>
    rcases s with _ | ⟨c, cs⟩
    · simp [ciStrip] at h
    · rw [List.cons_append]
      simp only [ciStrip] at h ⊢
      by_cases hc : c.toLower = pc
      · rw [if_pos hc] at h ⊢
        exact ih cs h
      · rw [if_neg hc] at h
        exact absurd h (by simp)

theorem patAt_extend (s t : Str) (h : patAt s = true) : patAt (s ++ t) = true := by
  rw [patAt] at h
  by_cases hc1 : (s.takeWhile (· = '*')).length > 2
  · rw [if_pos hc1] at h
    exact absurd h (by simp)
  rw [if_neg hc1] at h
  rcases hcs : ciStrip (strOf "last update") (s.dropWhile (· = '*')) with _ | r2 <;>
    rw [hcs] at h
  · simp at h
  simp only [Option.map_some', Option.getD_some] at h
  by_cases hc2 : (r2.takeWhile (· = '*')).length > 2
  · rw [if_pos hc2] at h
    exact absurd h (by simp)
  rw [if_neg hc2] at h
  rcases hdw : (r2.dropWhile (· = '*')).dropWhile jsWs with _ | ⟨c, cs⟩ <;>
    rw [hdw] at h
  · simp at h
  have hc : c = ':' := by
    simp only [List.take, beq_iff_eq] at h
    exact (List.cons_eq_cons.mp h).1
  subst hc
  have hds_ne : s.dropWhile (· = '*') ≠ [] := by
    intro hnil
    rw [hnil] at hcs
    simp [ciStrip, strOf] at hcs
  have hr2_ne : r2.dropWhile (· = '*') ≠ [] := by
    intro hnil
    rw [hnil] at hdw
    simp at hdw
  have hjw_ne : (r2.dropWhile (· = '*')).dropWhile jsWs ≠ [] := by
    rw [hdw]
    simp
  rw [patAt]
  rw [takeWhile_append_ne _ _ _ hds_ne, if_neg hc1]
  rw [dropWhile_append_ne _ _ _ hds_ne]
  rw [ciStrip_append _ _ t _ hcs]
  simp only [Option.map_some', Option.getD_some]
  rw [takeWhile_append_ne _ _ _ hr2_ne, if_neg hc2]
  rw [dropWhile_append_ne _ _ _ hr2_ne]
  rw [dropWhile_append_ne _ _ _ hjw_ne, hdw]
  rfl

theorem containsMAux_append_left (s t : Str) (h : containsMAux t = true) :
    containsMAux (s ++ t) = true := by
  induction s with
  | nil => exact h
  | cons c cs ih =>
    rw [List.cons_append]
    simp only [containsMAux]
    rw [ih]
    simp

theorem containsM_append_nl (s t : Str) (h : containsM t = true) :
    containsM (s ++ '\n' :: t) = true := by
  rw [containsM] at h
  have haux : containsMAux (s ++ '\n' :: t) = true := by
    apply containsMAux_append_left
    simp only [containsMAux, lineTerm]
    rcases Bool.or_eq_true_iff.mp h with h1 | h1
    · simp [h1]
    · simp [h1]
  rw [containsM, haux]
  simp

theorem mem_joinNL_containsM (L : List Str) (l : Str) (hm : l ∈ L)
    (hp : patAt l = true) : containsM (joinNL L) = true := by
  induction L with
  | nil => simp at hm
  | cons x xs ih =>
    rcases xs with _ | ⟨y, ys⟩
    · rw [List.mem_singleton] at hm
      subst hm
      show (patAt l || containsMAux l) = true
      rw [hp]
      simp
    · rw [joinNL_cons x _ (by simp)]
      rcases List.mem_cons.mp hm with hh | hh
      · subst hh
        rw [containsM, patAt_extend _ _ hp]
        simp
      · exact containsM_append_nl x _ (ih hh)

theorem containsM_minimalReadme (patch date : Str) :
    containsM (minimalReadme patch date) = true := by
  have h : minimalReadme patch date =
      strOf "# d2pt-grid-updater\n" ++ '\n' :: (lastUpdateLine patch date ++ ['\n']) := by
    rw [minimalReadme]
    rw [show strOf "# d2pt-grid-updater\n\n" =
      strOf "# d2pt-grid-updater\n" ++ ['\n'] from rfl]
    simp [List.append_assoc]
  rw [h]
  apply containsM_append_nl
  rw [containsM, patAt_extend _ _ (patAt_lastUpdateLine patch date)]
  simp

theorem mem_insertAfterH1 (lines : List Str) (lu : Str) :
    lu ∈ insertAfterH1 lines lu := by
  rw [insertAfterH1]
  rcases findIdxP isH1 lines with _ | t
  · simp
  · simp

theorem mem_set_self (L : List Str) (i : Nat) (a : Str) (h : i < L.length) :
    a ∈ L.set i a := by
  induction L generalizing i with
  | nil => simp at h
  | cons x xs ih =>
    rcases i with _ | j
    · simp
    · rw [List.set_cons_succ]
      exact List.mem_cons_of_mem x (ih j (by simpa using h))

theorem containsM_updateReadme (patch date : Str) (readme : Option Str) :
    containsM (updateReadmeLastUpdate patch date readme) = true := by
  rcases readme with _ | r
  · exact containsM_minimalReadme patch date
  · rw [updateReadmeLastUpdate]
    rcases hfind : findIdxP patAt (splitLinesL r) with _ | i
    · exact mem_joinNL_containsM _ _ (mem_insertAfterH1 _ _)
        (patAt_lastUpdateLine patch date)
    · exact mem_joinNL_containsM _ _
        (mem_set_self _ i _ (findIdxP_lt_length _ _ i hfind))
        (patAt_lastUpdateLine patch date)

theorem containsM_ensureReadme (patch date : Str) (readme : Option Str) :
    containsM (ensureReadmeHasLastUpdate patch date readme) = true := by
  rcases readme with _ | r
  · exact containsM_minimalReadme patch date
  · rw [ensureReadmeHasLastUpdate]
    by_cases hc : containsM r
    · rw [if_pos hc]
      exact hc
    · rw [if_neg hc]
      exact mem_joinNL_containsM _ _ (mem_insertAfterH1 _ _)
        (patAt_lastUpdateLine patch date)

theorem ensureReadme_of_containsM (patch date : Str) (r : Str)
    (h : containsM r = true) :
    ensureReadmeHasLastUpdate patch date (some r) = r := by
  rw [ensureReadmeHasLastUpdate, if_pos h]

/-! ## The last-update sidecar -/

theorem readLastUpdateFile_write (patch date : Str)
    (hpc : lineClean patch) (hdc : lineClean date)
    (hpt : trimL patch = patch) (hdt : trimL date = date)
    (hpne : patch ≠ []) (hdne : date ≠ []) :
    readLastUpdateFile (some (writeLastUpdateFile patch date)) = some ⟨patch, date⟩ := by
  have hsplit : splitLinesL (writeLastUpdateFile patch date) = [patch, date, []] := by
    rw [writeLastUpdateFile]
    rw [show patch ++ '\n' :: date ++ ['\n'] =
      patch ++ '\n' :: (date ++ '\n' :: []) by simp]
    rw [splitLinesL_append_lf _ _ hpc, splitLinesL_append_lf _ _ hdc]
    rfl
  rw [readLastUpdateFile, hsplit]
  simp only [List.getD]
  simp [hpt, hdt, hpne, hdne]

/-! ## Branch equations for the run state machine -/

theorem runMain_no_meta (force repair : Bool) (sc : Scrape) (st : FilesState)
    (h : sc.metaFound = false) : runMain force repair sc st = ⟨st, 0⟩ := by
  simp [runMain, h]

theorem runMain_no_parent (force repair : Bool) (sc : Scrape) (st : FilesState)
    (h1 : sc.metaFound = true) (h2 : sc.parentFound = false) :
    runMain force repair sc st = ⟨st, 0⟩ := by
  simp [runMain, h1, h2]

theorem runMain_repair (force : Bool) (sc : Scrape) (st : FilesState)
    (h1 : sc.metaFound = true) (h2 : sc.parentFound = true) :
    runMain force true sc st = runRepair sc st (st.grids.getD []) := by
  simp [runMain, h1, h2]

theorem runMain_skip_same (sc : Scrape) (st : FilesState) (lr : LastUpd)
    (h1 : sc.metaFound = true) (h2 : sc.parentFound = true)
    (he : entryExistsB sc st = true)
    (hlr : readLastUpdateFile st.lastUpdate = some lr)
    (hsame : (lr.date == sc.dateStr &&
      (lr.patch == sc.rawPatch || lr.patch == sc.patchStr)) = true) :
    runMain false false sc st =
      ⟨⟨st.grids, st.lastUpdate,
        some (ensureReadmeHasLastUpdate lr.patch lr.date st.readme)⟩, 0⟩ := by
  have hs : isSameB sc st = true := by
    rw [isSameB, hlr]
    exact hsame
  simp [runMain, h1, h2, he, hs, hlr]

theorem runMain_skip_stale (sc : Scrape) (st : FilesState)
    (h1 : sc.metaFound = true) (h2 : sc.parentFound = true)
    (he : entryExistsB sc st = true)
    (hs : isSameB sc st = false) :
    runMain false false sc st =
      ⟨⟨st.grids, some (writeLastUpdateFile sc.rawPatch sc.dateStr),
        some (updateReadmeLastUpdate sc.rawPatch sc.dateStr st.readme)⟩, 0⟩ := by
  simp [runMain, h1, h2, he, hs]

theorem runMain_btn_fail (force : Bool) (sc : Scrape) (st : FilesState)
    (h1 : sc.metaFound = true) (h2 : sc.parentFound = true)
    (hskip : (!force && entryExistsB sc st) = false)
    (hbtn : sc.buttonCount < 3) :
    runMain force false sc st = ⟨st, 0⟩ := by
  simp [runMain, h1, h2, hskip, hbtn]

theorem runMain_force_sync (sc : Scrape) (st : FilesState)
    (h1 : sc.metaFound = true) (h2 : sc.parentFound = true)
    (hbtn : ¬ sc.buttonCount < 3)
    (hcond : (isSameB sc st || entryExistsB sc st) = true) :
    runMain true false sc st =
      (if truthy (resolvedPatch sc (st.grids.getD [])) &&
          truthy (resolvedDate sc (st.grids.getD [])) then
        ⟨⟨st.grids, st.lastUpdate,
          some (updateReadmeLastUpdate
            ((resolvedPatch sc (st.grids.getD [])).getD [])
            ((resolvedDate sc (st.grids.getD [])).getD []) st.readme)⟩, 3⟩
      else ⟨st, 3⟩) := by
  simp [runMain, h1, h2, hbtn, hcond]

theorem runMain_download_insert (force : Bool) (sc : Scrape) (st : FilesState)
    (h1 : sc.metaFound = true) (h2 : sc.parentFound = true)
    (hbtn : ¬ sc.buttonCount < 3)
    (he : entryExistsB sc st = false)
    (hfs : (force && isSameB sc st) = false) :
    runMain force false sc st =
      ⟨⟨some (insertRowIntoMd (st.grids.getD []) (normalNewRow sc)),
        some (writeLastUpdateFile sc.rawPatch sc.dateStr),
        some (updateReadmeLastUpdate sc.rawPatch sc.dateStr st.readme)⟩, 3⟩ := by
  simp [runMain, h1, h2, hbtn, he, hfs]

/-! ## A matching line anywhere in a document fires the multiline test -/

theorem patAt_nil : patAt [] = false := rfl

theorem containsM_cons_term (c : Char) (t : Str) (hc : lineTerm c = true)
    (h : containsM t = true) : containsM (c :: t) = true := by
  rw [containsM] at h
  have haux : containsMAux (c :: t) = true := by
    rw [containsMAux]
    rcases Bool.or_eq_true_iff.mp h with h1 | h1
    · rw [hc, h1]
      simp
    · rw [h1]
      simp
  rw [containsM, haux]
  simp

theorem containsMAux_cons_of_aux (c : Char) (t : Str) (h : containsMAux t = true) :
    containsMAux (c :: t) = true := by
  rw [containsMAux, h]
  simp

theorem splitLinesL_head_prefix (s : Str) :
    ∃ rest2, s = (splitLinesL s).headD [] ++ rest2 := by
  induction s using splitLinesL.induct with
  | case1 => exact ⟨[], rfl⟩
  | case2 rest ih =>
    rw [splitLinesL_crlf]
    exact ⟨'\r' :: '\n' :: rest, rfl⟩
  | case3 rest ih =>
    rw [splitLinesL_lf]
    exact ⟨'\n' :: rest, rfl⟩
  | case4 c rest hne1 hne2 l2 ls2 heq ih =>
    rw [splitLinesL_other c rest (fun hh => hne2 hh)
      (by
        intro hcr hhd
        rcases rest with _ | ⟨c2, r2⟩
        · simp at hhd
        · simp at hhd
          exact hne1 r2 hcr (by rw [hhd])), heq]
    obtain ⟨r2, hr2⟩ := ih
    rw [heq] at hr2
    exact ⟨r2, by simp [List.headD]; rw [hr2]; simp [List.headD]⟩
  | case5 c rest hne1 hne2 heq ih =>
    exact absurd heq (splitLinesL_ne_nil rest)

theorem containsM_of_mem_line_aux (s : Str) :
    (∀ l ∈ splitLinesL s, patAt l = true → containsM s = true) ∧
    (∀ l ∈ (splitLinesL s).drop 1, patAt l = true → containsMAux s = true) := by
  induction s using splitLinesL.induct with
  | case1 =>
    constructor
    · intro l hl hp
      rw [splitLinesL_nil, List.mem_singleton] at hl
      rw [hl, patAt_nil] at hp
      exact absurd hp (by simp)
    · intro l hl
      rw [splitLinesL_nil] at hl
      simp at hl
  | case2 rest ih =>
    have key : ∀ l ∈ splitLinesL rest, patAt l = true →
        containsMAux ('\r' :: '\n' :: rest) = true := by
      intro l hl hp
      have hcm : containsM ('\n' :: rest) = true :=
        containsM_cons_term '\n' rest (by decide) (ih.1 l hl hp)
      rw [containsM] at hcm
      rcases Bool.or_eq_true_iff.mp hcm with h1 | h1
      · rw [containsMAux]
        rw [show lineTerm '\r' = true from by decide, h1]
        simp
      · exact containsMAux_cons_of_aux _ _ h1
    constructor
    · intro l hl hp
      rw [splitLinesL_crlf] at hl
      rcases List.mem_cons.mp hl with hh | hh
      · rw [hh, patAt_nil] at hp
        exact absurd hp (by simp)
      · rw [containsM, key l hh hp]
        simp
    · intro l hl hp
      rw [splitLinesL_crlf] at hl
      exact key l (List.mem_of_mem_drop hl) hp
  | case3 rest ih =>
    have key : ∀ l ∈ splitLinesL rest, patAt l = true →
        containsMAux ('\n' :: rest) = true := by
      intro l hl hp
      have hcm : containsM rest = true := ih.1 l hl hp
      rw [containsM] at hcm
      rcases Bool.or_eq_true_iff.mp hcm with h1 | h1
      · rw [containsMAux]
        rw [show lineTerm '\n' = true from by decide, h1]
        simp
      · exact containsMAux_cons_of_aux _ _ h1
    constructor
    · intro l hl hp
      rw [splitLinesL_lf] at hl
      rcases List.mem_cons.mp hl with hh | hh
      · rw [hh, patAt_nil] at hp
        exact absurd hp (by simp)
      · rw [containsM, key l hh hp]
        simp
    · intro l hl hp
      rw [splitLinesL_lf] at hl
      exact key l (List.mem_of_mem_drop hl) hp
  | case4 c rest hne1 hne2 l2 ls2 heq ih =>
    have hother := splitLinesL_other c rest (fun hh => hne2 hh)
      (by
        intro hcr hhd
        rcases rest with _ | ⟨c2, r2⟩
        · simp at hhd
        · simp at hhd
          exact hne1 r2 hcr (by rw [hhd]))
    rw [heq] at hother
    have hpart2 : ∀ l ∈ ls2, patAt l = true → containsMAux (c :: rest) = true := by
      intro l hl hp
      have : containsMAux rest = true := by
        apply ih.2 l _ hp
        rw [heq]
        simpa using hl
      exact containsMAux_cons_of_aux c rest this
    constructor
    · intro l hl hp
      rw [hother] at hl
      rcases List.mem_cons.mp hl with hh | hh
      · -- l is the first line: it is a prefix of the whole text
        obtain ⟨r2, hr2⟩ := splitLinesL_head_prefix (c :: rest)
        rw [hother] at hr2
        simp only [List.headD] at hr2
        rw [containsM]
        have : patAt (c :: rest) = true := by
          rw [show c :: rest = l ++ r2 by rw [hr2, hh]]
          exact patAt_extend l r2 hp
        rw [this]
        simp
      · rw [containsM, hpart2 l hh hp]
        simp
    · intro l hl hp
      rw [hother] at hl
      exact hpart2 l (by simpa using hl) hp
  | case5 c rest hne1 hne2 heq ih =>
    exact absurd heq (splitLinesL_ne_nil rest)

theorem containsM_of_mem_line (s l : Str) (hm : l ∈ splitLinesL s)
    (hp : patAt l = true) : containsM s = true :=
  (containsM_of_mem_line_aux s).1 l hm hp

/-! ## Cleanliness of saved filenames and link cells -/

theorem mem_of_mem_splitOnCharL (t : Char) (s l : Str) (x : Char)
    (hl : l ∈ splitOnCharL t s) (hx : x ∈ l) : x ∈ s := by
  induction s generalizing l with
  | nil =>
    simp [splitOnCharL] at hl
    rw [hl] at hx
    simp at hx
  | cons c rest ih =>
    simp only [splitOnCharL] at hl
    by_cases hc : c = t
    · rw [if_pos hc] at hl
      rcases List.mem_cons.mp hl with hh | hh
      · rw [hh] at hx
        simp at hx
      · exact List.mem_cons_of_mem c (ih l hh hx)
    · rw [if_neg hc] at hl
      rcases hsp : splitOnCharL t rest with _ | ⟨s1, ss⟩
      · exact absurd hsp (splitOnCharL_ne_nil t rest)
      · rw [hsp] at hl
        rcases List.mem_cons.mp hl with hh | hh
        · rw [hh] at hx
          rcases List.mem_cons.mp hx with hx2 | hx2
          · exact hx2 ▸ List.mem_cons_self c rest
          · exact List.mem_cons_of_mem c
              (ih s1 (hsp ▸ List.mem_cons_self s1 ss) hx2)
        · exact List.mem_cons_of_mem c
            (ih l (hsp ▸ List.mem_cons_of_mem s1 hh) hx)

theorem getLastD_mem (L : List Str) (hne : L ≠ []) : L.getLastD [] ∈ L := by
  induction L with
  | nil => exact absurd rfl hne
  | cons a as ih =>
    rcases as with _ | ⟨b, bs⟩
    · simp [List.getLastD]
    · rw [List.getLastD_cons]
      exact List.mem_cons_of_mem a (ih (by simp))

theorem mem_jsBasename (s : Str) (x : Char) (hx : x ∈ jsBasename s) : x ∈ s := by
  rw [jsBasename] at hx
  exact mem_of_mem_splitOnCharL '/' s _ x
    (getLastD_mem _ (splitOnCharL_ne_nil '/' s)) hx

theorem mem_stripJsonSuffix (s : Str) (x : Char) (hx : x ∈ stripJsonSuffix s) :
    x ∈ s := by
  rw [stripJsonSuffix] at hx
  by_cases hs : List.isSuffixOf (strOf ".json") s
  · rw [if_pos hs] at hx
    exact List.take_subset _ _ hx
  · rw [if_neg hs] at hx
    exact hx

theorem mem_savedFileName (suggested date patchS : Str) (x : Char)
    (hx : x ∈ savedFileName suggested date patchS) :
    x ∈ suggested ∨ x ∈ date ∨ x ∈ patchS ∨ x ∈ strOf "./grids/" ∨
      x = '_' ∨ x ∈ strOf ".json" := by
  have h := mem_jsBasename _ _ hx
  simp only [List.mem_append, List.mem_cons] at h
  rcases h with (((hh | hh) | hh) | hh) | hh
  · exact Or.inr (Or.inr (Or.inr (Or.inl hh)))
  · exact Or.inl (mem_stripJsonSuffix _ _ hh)
  · rcases hh with hh2 | hh2
    · exact Or.inr (Or.inr (Or.inr (Or.inr (Or.inl hh2))))
    · exact Or.inr (Or.inl hh2)
  · rcases hh with hh2 | hh2
    · exact Or.inr (Or.inr (Or.inr (Or.inr (Or.inl hh2))))
    · exact Or.inr (Or.inr (Or.inl hh2))
  · exact Or.inr (Or.inr (Or.inr (Or.inr (Or.inr hh))))

theorem lineClean_savedFileName (suggested date patchS : Str)
    (h1 : lineClean suggested) (h2 : lineClean date) (h3 : lineClean patchS) :
    lineClean (savedFileName suggested date patchS) := by
  constructor
  · intro hc
    rcases mem_savedFileName _ _ _ _ hc with hh | hh | hh | hh | hh | hh
    exacts [h1.1 hh, h2.1 hh, h3.1 hh, absurd hh (by decide),
      absurd hh (by decide), absurd hh (by decide)]
  · intro hc
    rcases mem_savedFileName _ _ _ _ hc with hh | hh | hh | hh | hh | hh
    exacts [h1.2 hh, h2.2 hh, h3.2 hh, absurd hh (by decide),
      absurd hh (by decide), absurd hh (by decide)]

theorem lineClean_linkFile (f : Option Str)
    (h : ∀ s, f = some s → lineClean s) : lineClean (linkFile f) := by
  rcases f with _ | s
  · exact ⟨by simp [linkFile], by simp [linkFile]⟩
  · rw [linkFile]
    by_cases hs : s == ([] : Str)
    · rw [if_pos hs]
      exact ⟨by simp, by simp⟩
    · rw [if_neg hs]
      have hsc := h s rfl
      constructor <;>
      · intro hc
        simp only [List.mem_append] at hc
        rcases hc with (hh | hh) | hh
        · exact absurd hh (by decide)
        · first
          | exact hsc.1 hh
          | exact hsc.2 hh
        · exact absurd hh (by simp [show ('\n' : Char) ≠ ')' from by decide,
            show ('\r' : Char) ≠ ')' from by decide])

/-- The cleanliness conditions a realistically scraped release satisfies:
a YYYY-MM-DD (or sentinel) date and a nonempty whitespace-free patch token,
with single-line download filenames. -/
def ScrapeClean (sc : Scrape) : Prop :=
  DateOk sc.dateStr ∧ CellOk sc.rawPatch ∧ sc.rawPatch ≠ [] ∧
  lineClean sc.patchStr ∧ lineClean sc.name0 ∧ lineClean sc.name1 ∧
  lineClean sc.name2

theorem lineClean_normalNewRow (sc : Scrape) (h : ScrapeClean sc) :
    lineClean (normalNewRow sc) := by
  obtain ⟨hd, hp, _, hps, hn0, hn1, hn2⟩ := h
  exact lineClean_renderRow _ _ _ _ _ hd.1.2.2 hp.2.2
    (lineClean_linkFile _ (fun s hs => by
      cases hs
      exact lineClean_savedFileName _ _ _ hn0 hd.1.2.2 hps))
    (lineClean_linkFile _ (fun s hs => by
      cases hs
      exact lineClean_savedFileName _ _ _ hn1 hd.1.2.2 hps))
    (lineClean_linkFile _ (fun s hs => by
      cases hs
      exact lineClean_savedFileName _ _ _ hn2 hd.1.2.2 hps))

theorem entryExists_after_insert (sc : Scrape) (md : Str) (b : Option Str)
    (hcr : '\r' ∉ md) (h : ScrapeClean sc) :
    hasEntryInMd (insertRowIntoMd md (normalNewRow sc))
      sc.dateStr sc.rawPatch b = true := by
  obtain ⟨hd, hp, _, hps, hn0, hn1, hn2⟩ := h
  exact hasEntryInMd_insertRow md _ _ _ _ _ b hcr hd hp
    (lineClean_linkFile _ (fun s hs => by
      cases hs
      exact lineClean_savedFileName _ _ _ hn0 hd.1.2.2 hps))
    (lineClean_linkFile _ (fun s hs => by
      cases hs
      exact lineClean_savedFileName _ _ _ hn1 hd.1.2.2 hps))
    (lineClean_linkFile _ (fun s hs => by
      cases hs
      exact lineClean_savedFileName _ _ _ hn2 hd.1.2.2 hps))

theorem runRepair_btn (sc : Scrape) (st : FilesState) (md : Str)
    (hbtn : sc.buttonCount < 3) :
    (runRepair sc st md).files.grids = st.grids ∧
    (runRepair sc st md).downloads = 0 := by
  constructor <;>
  · simp only [runRepair, hbtn, if_true, ite_self]
    split <;> rfl

/-! ## Claim C9 -/

/-- Claim C9: ensureReadmeHasLastUpdate is a strict no-op on presence — for
every document containing a line that matches the case-insensitive
"Last update:" pattern (bold markers optional) at its start, the function
returns the document unchanged, regardless of whether the arguments differ
from the values in the existing line. -/
theorem c9_ensureDocLine_noop (patch date readme l : Str)
    (hm : l ∈ splitLinesL readme) (hp : patAt l = true) :
    ensureReadmeHasLastUpdate patch date (some readme) = readme :=
  ensureReadme_of_containsM patch date readme (containsM_of_mem_line readme l hm hp)

/-- Witness for C9: a README whose metadata line holds different values than
the arguments is returned byte-for-byte unchanged. -/
theorem c9_witness :
    ensureReadmeHasLastUpdate (strOf "9.99z") (strOf "2099-12-31")
      (some (strOf "# t\n**Last update**: 2020-01-01 • Patch 1.0 — old\nbody")) =
      strOf "# t\n**Last update**: 2020-01-01 • Patch 1.0 — old\nbody" :=
  c9_ensureDocLine_noop (strOf "9.99z") (strOf "2099-12-31")
    (strOf "# t\n**Last update**: 2020-01-01 • Patch 1.0 — old\nbody")
    (strOf "**Last update**: 2020-01-01 • Patch 1.0 — old")
    (by decide) (by decide)

/-! ## Claim C10 -/

/-- Claim C10: in a force run where the sidecar matches the scraped release
(is_same) but the ledger has no row for it (entry_exists false), the engine
downloads the three artifacts yet inserts no ledger row and does not
rewrite the sidecar; only the README line is synced (from the resolved
date/patch when both are usable). -/
theorem c10_force_same_no_ledger (sc : Scrape) (st : FilesState)
    (h1 : sc.metaFound = true) (h2 : sc.parentFound = true)
    (hbtn : 3 ≤ sc.buttonCount)
    (hsame : isSameB sc st = true)
    (hentry : entryExistsB sc st = false) :
    (runMain true false sc st).files.grids = st.grids ∧
    (runMain true false sc st).files.lastUpdate = st.lastUpdate ∧
    (runMain true false sc st).downloads = 3 ∧
    (runMain true false sc st).files.readme =
      (if truthy (resolvedPatch sc (st.grids.getD [])) &&
          truthy (resolvedDate sc (st.grids.getD [])) then
        some (updateReadmeLastUpdate
          ((resolvedPatch sc (st.grids.getD [])).getD [])
          ((resolvedDate sc (st.grids.getD [])).getD []) st.readme)
      else st.readme) := by
  have h := runMain_force_sync sc st h1 h2 (by omega) (by rw [hsame]; simp)
  rw [h]
  by_cases hc : (truthy (resolvedPatch sc (st.grids.getD [])) &&
      truthy (resolvedDate sc (st.grids.getD []))) = true
  · rw [if_pos hc, if_pos hc]
    exact ⟨rfl, rfl, rfl, rfl⟩
  · rw [if_neg hc, if_neg hc]
    exact ⟨rfl, rfl, rfl, rfl⟩

/-- Witness for C10 at a concrete state: sidecar matches, ledger missing. -/
theorem c10_witness :
    (runMain true false
      ⟨true, strOf "2025-10-12", strOf "7.39d", strOf "p7_39d", true, 3,
        strOf "a", strOf "b", strOf "c"⟩
      ⟨none, some (strOf "7.39d\n2025-10-12\n"), none⟩).files.grids = none ∧
    (runMain true false
      ⟨true, strOf "2025-10-12", strOf "7.39d", strOf "p7_39d", true, 3,
        strOf "a", strOf "b", strOf "c"⟩
      ⟨none, some (strOf "7.39d\n2025-10-12\n"), none⟩).files.lastUpdate =
        some (strOf "7.39d\n2025-10-12\n") ∧
    (runMain true false
      ⟨true, strOf "2025-10-12", strOf "7.39d", strOf "p7_39d", true, 3,
        strOf "a", strOf "b", strOf "c"⟩
      ⟨none, some (strOf "7.39d\n2025-10-12\n"), none⟩).downloads = 3 := by
  have h := c10_force_same_no_ledger
    ⟨true, strOf "2025-10-12", strOf "7.39d", strOf "p7_39d", true, 3,
      strOf "a", strOf "b", strOf "c"⟩
    ⟨none, some (strOf "7.39d\n2025-10-12\n"), none⟩
    (by decide) (by decide) (by decide) (by decide) (by decide)
  exact ⟨h.1, h.2.1, h.2.2.1⟩

/-! ## Claim C6 -/

/-- Claim C6: insertEntry is append-only at the top — for every ledger text
with a separator line, insertion splices exactly one new row right after
the separator and leaves every pre-existing line unchanged in order; hence
inserting releases in order R1, R2, R3 yields rows R3, R2, R1 top-down. -/
theorem c6_insert_append_only :
    (∀ (md row : Str) (i : Nat), '\r' ∉ md →
      findIdxP isSepLine (splitLinesL md) = some i → lineClean row →
      splitLinesL (insertRowIntoMd md row) =
        (splitLinesL md).take (i + 1) ++ row :: (splitLinesL md).drop (i + 1)) ∧
    (∀ r1 r2 r3 : Str, lineClean r1 → lineClean r2 → lineClean r3 →
      splitLinesL (insertRowIntoMd (insertRowIntoMd (insertRowIntoMd [] r1) r2) r3) =
        [tableHeader, tableSep, r3, r2, r1, []]) := by
  constructor
  · exact splitLinesL_insertRow
  · intro r1 r2 r3 h1 h2 h3
    rw [insertRow_nil]
    rw [insertRow_ledgerString [r1] r2 (by
      intro r hr
      rw [List.mem_singleton.mp hr]
      exact h1)]
    rw [insertRow_ledgerString [r2, r1] r3 (by
      intro r hr
      rcases List.mem_cons.mp hr with hh | hh
      · exact hh ▸ h2
      · rw [List.mem_singleton.mp hh]
        exact h1)]
    rw [splitLinesL_ledgerString [r3, r2, r1] (by
      intro r hr
      rcases List.mem_cons.mp hr with hh | hh
      · exact hh ▸ h3
      · rcases List.mem_cons.mp hh with hh2 | hh2
        · exact hh2 ▸ h2
        · rw [List.mem_singleton.mp hh2]
          exact h1)]
    rfl

/-- Witness for C6: a concrete splice right after the separator, and the
newest-first ordering of three successive insertions. -/
theorem c6_witness :
    splitLinesL (insertRowIntoMd
      (strOf "# t\n| Date | Patch | A |\n| --- | --- | --- |\n| d1 | p1 | x |\n")
      (strOf "| d2 | p2 | y |")) =
      [strOf "# t", strOf "| Date | Patch | A |", strOf "| --- | --- | --- |",
        strOf "| d2 | p2 | y |", strOf "| d1 | p1 | x |", []] ∧
    splitLinesL (insertRowIntoMd (insertRowIntoMd (insertRowIntoMd []
      (strOf "| a | 1 | r1 |")) (strOf "| b | 2 | r2 |")) (strOf "| c | 3 | r3 |")) =
      [tableHeader, tableSep, strOf "| c | 3 | r3 |", strOf "| b | 2 | r2 |",
        strOf "| a | 1 | r1 |", []] := by
  constructor
  · exact (c6_insert_append_only.1
      (strOf "# t\n| Date | Patch | A |\n| --- | --- | --- |\n| d1 | p1 | x |\n")
      (strOf "| d2 | p2 | y |") 2 (by decide) (by decide) (by decide)).trans
      (by decide)
  · exact c6_insert_append_only.2 (strOf "| a | 1 | r1 |") (strOf "| b | 2 | r2 |")
      (strOf "| c | 3 | r3 |") (by decide) (by decide) (by decide)

/-! ## Claim C4 (corrected) -/

/-- Counterexample to C4 as stated: in repair mode with only 2 download
triggers found and an empty ledger, the run still writes the last-update
sidecar and the README line — the claim says no bookkeeping file is
updated in any run mode when fewer than three triggers are found. -/
theorem c4_counterexample :
    (⟨true, strOf "2025-01-01", strOf "7.39d", strOf "p7_39d", true, 2,
      strOf "a", strOf "b", strOf "c"⟩ : Scrape).buttonCount < 3 ∧
    (runMain false true
      ⟨true, strOf "2025-01-01", strOf "7.39d", strOf "p7_39d", true, 2,
        strOf "a", strOf "b", strOf "c"⟩
      ⟨none, none, none⟩).files.lastUpdate =
        some (strOf "7.39d\n2025-01-01\n") ∧
    (⟨none, none, none⟩ : FilesState).lastUpdate = none := by
  refine ⟨by decide, ?_, rfl⟩
  decide

/-- Claim C4 as amended: the two missing-container failures abort every
run mode with no writes; the fewer-than-three-triggers failure aborts
normal and force runs (that reach the count) with no writes, while in
repair mode it aborts only the ledger reconstruction — the ledger and
download count are untouched, but sidecars may still be written. -/
theorem c4_structural_failures :
    (∀ (force repair : Bool) (sc : Scrape) (st : FilesState),
      sc.metaFound = false → runMain force repair sc st = ⟨st, 0⟩) ∧
    (∀ (force repair : Bool) (sc : Scrape) (st : FilesState),
      sc.metaFound = true → sc.parentFound = false →
      runMain force repair sc st = ⟨st, 0⟩) ∧
    (∀ (force : Bool) (sc : Scrape) (st : FilesState),
      sc.metaFound = true → sc.parentFound = true →
      (!force && entryExistsB sc st) = false → sc.buttonCount < 3 →
      runMain force false sc st = ⟨st, 0⟩) ∧
    (∀ (force : Bool) (sc : Scrape) (st : FilesState),
      sc.metaFound = true → sc.parentFound = true → sc.buttonCount < 3 →
      (runMain force true sc st).files.grids = st.grids ∧
      (runMain force true sc st).downloads = 0) := by
  refine ⟨runMain_no_meta, runMain_no_parent, runMain_btn_fail, ?_⟩
  intro force sc st h1 h2 hbtn
  rw [runMain_repair force sc st h1 h2]
  exact runRepair_btn sc st (st.grids.getD []) hbtn

/-- Witness for C4 (amended) at concrete inputs. -/
theorem c4_witness :
    runMain false false
      ⟨false, strOf "d", strOf "p", strOf "pp", true, 3,
        strOf "a", strOf "b", strOf "c"⟩ ⟨none, none, none⟩ =
      ⟨⟨none, none, none⟩, 0⟩ ∧
    runMain false false
      ⟨true, strOf "d", strOf "p", strOf "pp", true, 2,
        strOf "a", strOf "b", strOf "c"⟩ ⟨none, none, none⟩ =
      ⟨⟨none, none, none⟩, 0⟩ ∧
    (runMain false true
      ⟨true, strOf "2025-01-01", strOf "7.39d", strOf "p7_39d", true, 2,
        strOf "a", strOf "b", strOf "c"⟩ ⟨none, none, none⟩).files.grids = none := by
  refine ⟨?_, ?_, ?_⟩
  · exact c4_structural_failures.1 false false _ _ (by decide)
  · exact c4_structural_failures.2.2.1 false _ _ (by decide) (by decide)
      (by decide) (by decide)
  · exact (c4_structural_failures.2.2.2 false _ _ (by decide) (by decide)
      (by decide)).1

/-! ## Repair branch equations -/

theorem strOpt_some (s x : Str) (h : strOpt s = some x) : x = s ∧ s ≠ [] := by
  rw [strOpt] at h
  by_cases hs : s == ([] : Str)
  · rw [if_pos hs] at h
    exact absurd h (by simp)
  · rw [if_neg hs] at h
    injection h with h2
    exact ⟨h2.symm, by simpa using hs⟩

theorem parseRowCells_fields (row : Str) (r : MdRow) (h : parseRowCells row = some r) :
    (∀ x, r.date = some x → x ≠ []) ∧ (∀ x, r.patch = some x → x ≠ []) := by
  rw [parseRowCells] at h
  split at h
  · exact absurd h (by simp)
  · split at h
    · exact absurd h (by simp)
    · cases h
      constructor <;> intro x hx
      · obtain ⟨hxa, hane⟩ := strOpt_some _ _ hx
        rw [hxa]
        exact hane
      · obtain ⟨hxa, hane⟩ := strOpt_some _ _ hx
        rw [hxa]
        exact hane

theorem parseFirstRowFromMd_fields (md : Str) (r : MdRow)
    (h : parseFirstRowFromMd md = some r) :
    (∀ x, r.date = some x → x ≠ []) ∧ (∀ x, r.patch = some x → x ≠ []) := by
  rw [parseFirstRowFromMd] at h
  split at h
  · exact absurd h (by simp)
  · split at h
    · exact absurd h (by simp)
    · split at h
      · exact absurd h (by simp)
      · exact parseRowCells_fields _ _ h

theorem runRepair_usable_row (sc : Scrape) (st : FilesState) (md : Str)
    (r : MdRow) (dd pp : Str)
    (hparse : parseFirstRowFromMd md = some r)
    (hdate : r.date = some dd) (hpatch : r.patch = some pp) :
    runRepair sc st md =
      ⟨⟨st.grids, some (writeLastUpdateFile pp dd),
        some (updateReadmeLastUpdate pp dd st.readme)⟩, 0⟩ := by
  have hdne : dd ≠ [] := (parseFirstRowFromMd_fields md r hparse).1 dd hdate
  have hpne : pp ≠ [] := (parseFirstRowFromMd_fields md r hparse).2 pp hpatch
  have hpv : resolvedPatch sc md = some pp := by
    rw [resolvedPatch, hparse]
    show jsOrO r.patch _ = some pp
    rw [hpatch, jsOrO]
    simp [hpne]
  have hdv : resolvedDate sc md = some dd := by
    rw [resolvedDate, hparse]
    show jsOrO r.date _ = some dd
    rw [hdate, jsOrO]
    simp [hdne]
  simp only [runRepair, hpv, hdv, hparse]
  simp [truthy, hpne, hdne]

theorem truthy_some (x : Str) : truthy (some x) = !(x == []) := rfl

theorem runRepair_rebuild (sc : Scrape) (st : FilesState) (md : Str)
    (hparse : parseFirstRowFromMd md = none)
    (hraw : sc.rawPatch ≠ unknownPatchRaw) (hrawne : sc.rawPatch ≠ [])
    (hdate : sc.dateStr ≠ unknownDate) (hdatene : sc.dateStr ≠ [])
    (hpS : sc.patchStr ≠ strOf "punknown_patch_raw")
    (hbtn : ¬ sc.buttonCount < 3) :
    runRepair sc st md =
      ⟨⟨some (freshTable (normalNewRow sc)),
        some (writeLastUpdateFile sc.rawPatch sc.dateStr),
        some (updateReadmeLastUpdate sc.rawPatch sc.dateStr st.readme)⟩, 3⟩ := by
  have hpv : resolvedPatch sc md = some sc.rawPatch := by
    rw [resolvedPatch, hparse]
    show jsOrO none _ = _
    rw [jsOrO]
    simp [hraw]
  have hdv : resolvedDate sc md = some sc.dateStr := by
    rw [resolvedDate, hparse]
    show jsOrO none _ = _
    rw [jsOrO]
    simp [hdate]
  have h1 : (sc.rawPatch == ([] : Str)) = false := beq_eq_false_iff_ne.mpr hrawne
  have h2 : (sc.dateStr == ([] : Str)) = false := beq_eq_false_iff_ne.mpr hdatene
  have h3 : (sc.dateStr == unknownDate) = false := beq_eq_false_iff_ne.mpr hdate
  have h4 : (sc.patchStr == strOf "punknown_patch_raw") = false :=
    beq_eq_false_iff_ne.mpr hpS
  simp only [runRepair, hpv, hdv, hparse, Option.isNone_none, Bool.true_and,
    truthy_some, Option.getD_some, h1, h2, h3, h4, Bool.not_false, Bool.and_self,
    if_true, Bool.false_eq_true, if_false]
  rw [if_neg hbtn]
  simp [normalNewRow]

theorem runRepair_unusable (sc : Scrape) (st : FilesState) (md : Str)
    (h : (truthy (resolvedPatch sc md) && truthy (resolvedDate sc md)) = false) :
    runRepair sc st md = ⟨⟨st.grids, st.lastUpdate, st.readme⟩, 0⟩ := by
  have hrebuild : ¬ ((parseFirstRowFromMd md).isNone &&
      truthy (resolvedPatch sc md) && truthy (resolvedDate sc md)) = true := by
    intro hc
    rw [Bool.and_assoc] at hc
    rcases Bool.and_eq_true_iff.mp hc with ⟨_, h2⟩
    rw [h2] at h
    simp at h
  simp only [runRepair]
  rw [if_neg hrebuild, if_neg (by rw [h]; simp)]

/-! ## Claim C5 -/

/-- Claim C5: repair mode downloads only when necessary and always resolves
the sidecars — with a parsable first ledger row carrying both date and
patch, zero downloads and both sidecars rewritten from that row; with no
parsable row but a usable scrape, exactly one reconstruction cycle (three
downloads and a freshly synthesized header+separator+one-row ledger); and
when the resolved date/patch pair is unusable, nothing is written. -/
theorem c5_repair_behavior (force : Bool) (sc : Scrape) (st : FilesState)
    (h1 : sc.metaFound = true) (h2 : sc.parentFound = true) :
    (∀ (r : MdRow) (dd pp : Str),
      parseFirstRowFromMd (st.grids.getD []) = some r →
      r.date = some dd → r.patch = some pp →
      runMain force true sc st =
        ⟨⟨st.grids, some (writeLastUpdateFile pp dd),
          some (updateReadmeLastUpdate pp dd st.readme)⟩, 0⟩) ∧
    (parseFirstRowFromMd (st.grids.getD []) = none →
      sc.rawPatch ≠ unknownPatchRaw → sc.rawPatch ≠ [] →
      sc.dateStr ≠ unknownDate → sc.dateStr ≠ [] →
      sc.patchStr ≠ strOf "punknown_patch_raw" → 3 ≤ sc.buttonCount →
      runMain force true sc st =
        ⟨⟨some (freshTable (normalNewRow sc)),
          some (writeLastUpdateFile sc.rawPatch sc.dateStr),
          some (updateReadmeLastUpdate sc.rawPatch sc.dateStr st.readme)⟩, 3⟩) ∧
    ((truthy (resolvedPatch sc (st.grids.getD [])) &&
        truthy (resolvedDate sc (st.grids.getD []))) = false →
      runMain force true sc st = ⟨st, 0⟩) := by
  refine ⟨?_, ?_, ?_⟩
  · intro r dd pp hparse hdate hpatch
    rw [runMain_repair force sc st h1 h2]
    exact runRepair_usable_row sc st _ r dd pp hparse hdate hpatch
  · intro hparse hraw hrawne hdate hdatene hpS hbtn
    rw [runMain_repair force sc st h1 h2]
    exact runRepair_rebuild sc st _ hparse hraw hrawne hdate hdatene hpS
      (by omega)
  · intro hun
    rw [runMain_repair force sc st h1 h2]
    exact runRepair_unusable sc st _ hun

/-- Witness for C5 at three concrete repair runs: usable ledger row,
reconstruction from scrape, and unusable inputs. -/
theorem c5_witness :
    runMain false true
      ⟨true, strOf "2026-01-01", strOf "8.0", strOf "p8_0", true, 3,
        strOf "a", strOf "b", strOf "c"⟩
      ⟨some (strOf
        "| Date | Patch | A |\n| --- | --- | --- |\n| 2025-10-12 | 7.39d | x |\n"),
        none, none⟩ =
      ⟨⟨some (strOf
        "| Date | Patch | A |\n| --- | --- | --- |\n| 2025-10-12 | 7.39d | x |\n"),
        some (writeLastUpdateFile (strOf "7.39d") (strOf "2025-10-12")),
        some (updateReadmeLastUpdate (strOf "7.39d") (strOf "2025-10-12") none)⟩,
        0⟩ ∧
    runMain false true
      ⟨true, strOf "2026-01-01", strOf "8.0", strOf "p8_0", true, 3,
        strOf "a", strOf "b", strOf "c"⟩ ⟨none, none, none⟩ =
      ⟨⟨some (freshTable (normalNewRow
          ⟨true, strOf "2026-01-01", strOf "8.0", strOf "p8_0", true, 3,
            strOf "a", strOf "b", strOf "c"⟩)),
        some (writeLastUpdateFile (strOf "8.0") (strOf "2026-01-01")),
        some (updateReadmeLastUpdate (strOf "8.0") (strOf "2026-01-01") none)⟩,
        3⟩ ∧
    runMain false true
      ⟨true, strOf "unknown_date", strOf "unknown_patch_raw",
        strOf "unknown_patch", true, 3, strOf "a", strOf "b", strOf "c"⟩
      ⟨none, none, none⟩ = ⟨⟨none, none, none⟩, 0⟩ := by
  refine ⟨?_, ?_, ?_⟩
  · exact (c5_repair_behavior false _ _ (by decide) (by decide)).1
      ⟨some (strOf "2025-10-12"), some (strOf "7.39d")⟩
      (strOf "2025-10-12") (strOf "7.39d") (by decide) rfl rfl
  · exact (c5_repair_behavior false _ _ (by decide) (by decide)).2.1
      (by decide) (by decide) (by decide) (by decide) (by decide) (by decide)
      (by decide)
  · exact (c5_repair_behavior false _ _ (by decide) (by decide)).2.2
      (by decide)

/-! ## Claim C1 -/

theorem force_sync_frame (sc : Scrape) (st : FilesState)
    (h1 : sc.metaFound = true) (h2 : sc.parentFound = true)
    (hbtn : ¬ sc.buttonCount < 3)
    (hcond : (isSameB sc st || entryExistsB sc st) = true) :
    (runMain true false sc st).files.grids = st.grids ∧
    (runMain true false sc st).files.lastUpdate = st.lastUpdate ∧
    (runMain true false sc st).downloads = 3 := by
  rw [runMain_force_sync sc st h1 h2 hbtn hcond]
  by_cases hc : (truthy (resolvedPatch sc (st.grids.getD [])) &&
      truthy (resolvedDate sc (st.grids.getD []))) = true
  · rw [if_pos hc]
    exact ⟨rfl, rfl, rfl⟩
  · rw [if_neg hc]
    exact ⟨rfl, rfl, rfl⟩

/-- Claim C1: in force mode with an existing ledger entry, the run inserts
no duplicate ledger row and does not write the last-update sidecar; it only
re-syncs the README line, preferring the ledger's first-row date/patch
field-by-field and falling back to the scraped values; consequently a force
run right after a completed normal-mode run for the same release leaves the
ledger row count unchanged. -/
theorem c1_force_no_duplicate :
    (∀ (sc : Scrape) (st : FilesState),
      sc.metaFound = true → sc.parentFound = true → 3 ≤ sc.buttonCount →
      entryExistsB sc st = true →
      (runMain true false sc st).files.grids = st.grids ∧
      (runMain true false sc st).files.lastUpdate = st.lastUpdate ∧
      (runMain true false sc st).downloads = 3 ∧
      entriesPairs ((runMain true false sc st).files.grids.getD []) =
        entriesPairs (st.grids.getD []) ∧
      (runMain true false sc st).files.readme =
        (if truthy (resolvedPatch sc (st.grids.getD [])) &&
            truthy (resolvedDate sc (st.grids.getD [])) then
          some (updateReadmeLastUpdate
            ((resolvedPatch sc (st.grids.getD [])).getD [])
            ((resolvedDate sc (st.grids.getD [])).getD []) st.readme)
        else st.readme)) ∧
    (∀ (sc : Scrape) (st0 : FilesState),
      sc.metaFound = true → sc.parentFound = true → 3 ≤ sc.buttonCount →
      ScrapeClean sc → '\r' ∉ st0.grids.getD [] →
      entriesPairs ((runMain true false sc
          (runMain false false sc st0).files).files.grids.getD []) =
        entriesPairs ((runMain false false sc st0).files.grids.getD []) ∧
      (runMain true false sc
          (runMain false false sc st0).files).files.grids =
        (runMain false false sc st0).files.grids) := by
  constructor
  · intro sc st h1 h2 hbtn he
    have hcond : (isSameB sc st || entryExistsB sc st) = true := by
      rw [he]
      simp
    obtain ⟨hg, hl, hd⟩ := force_sync_frame sc st h1 h2 (by omega) hcond
    refine ⟨hg, hl, hd, by rw [hg], ?_⟩
    rw [runMain_force_sync sc st h1 h2 (by omega) hcond]
    by_cases hc : (truthy (resolvedPatch sc (st.grids.getD [])) &&
        truthy (resolvedDate sc (st.grids.getD []))) = true
    · rw [if_pos hc, if_pos hc]
    · rw [if_neg hc, if_neg hc]
  · intro sc st0 h1 h2 hbtn hclean hcr
    have key : ∀ st1 : FilesState,
        entryExistsB sc st1 = true →
        entriesPairs ((runMain true false sc st1).files.grids.getD []) =
          entriesPairs (st1.grids.getD []) ∧
        (runMain true false sc st1).files.grids = st1.grids := by
      intro st1 he1
      have hcond : (isSameB sc st1 || entryExistsB sc st1) = true := by
        rw [he1]
        simp
      obtain ⟨hg, _, _⟩ := force_sync_frame sc st1 h1 h2 (by omega) hcond
      exact ⟨by rw [hg], hg⟩
    by_cases he0 : entryExistsB sc st0 = true
    · -- the normal run left the ledger untouched
      have hg1 : (runMain false false sc st0).files.grids = st0.grids := by
        rcases hlr : readLastUpdateFile st0.lastUpdate with _ | lr
        · rw [runMain_skip_stale sc st0 h1 h2 he0 (by rw [isSameB, hlr])]
        · by_cases hsame : (lr.date == sc.dateStr &&
              (lr.patch == sc.rawPatch || lr.patch == sc.patchStr)) = true
          · rw [runMain_skip_same sc st0 lr h1 h2 he0 hlr hsame]
          · rw [runMain_skip_stale sc st0 h1 h2 he0
              (by rw [isSameB, hlr]; simpa using hsame)]
      have he1 : entryExistsB sc (runMain false false sc st0).files = true := by
        rw [entryExistsB, hg1]
        exact he0
      exact key _ he1
    · -- the normal run inserted the row; force then finds it
      have he0f : entryExistsB sc st0 = false := by simpa using he0
      have hrun := runMain_download_insert false sc st0 h1 h2 (by omega) he0f
        (by simp)
      have he1 : entryExistsB sc (runMain false false sc st0).files = true := by
        rw [entryExistsB, hrun]
        exact entryExists_after_insert sc (st0.grids.getD []) _ hcr hclean
      exact key _ he1

/-- Witness for C1: force after normal for the same release keeps exactly
the one ledger row. -/
theorem c1_witness :
    entriesPairs ((runMain true false
      ⟨true, strOf "2025-10-12", strOf "7.39d", strOf "p7_39d", true, 3,
        strOf "a", strOf "b", strOf "c"⟩
      (runMain false false
        ⟨true, strOf "2025-10-12", strOf "7.39d", strOf "p7_39d", true, 3,
          strOf "a", strOf "b", strOf "c"⟩
        ⟨none, none, none⟩).files).files.grids.getD []) =
      entriesPairs ((runMain false false
        ⟨true, strOf "2025-10-12", strOf "7.39d", strOf "p7_39d", true, 3,
          strOf "a", strOf "b", strOf "c"⟩
        ⟨none, none, none⟩).files.grids.getD []) :=
  (c1_force_no_duplicate.2
    ⟨true, strOf "2025-10-12", strOf "7.39d", strOf "p7_39d", true, 3,
      strOf "a", strOf "b", strOf "c"⟩
    ⟨none, none, none⟩
    (by decide) (by decide) (by decide)
    (by
      refine ⟨⟨⟨by decide, by decide, by decide, by decide⟩, by decide, by decide⟩,
        ⟨by decide, by decide, by decide, by decide⟩, by decide,
        ⟨by decide, by decide⟩, ⟨by decide, by decide⟩, ⟨by decide, by decide⟩,
        ⟨by decide, by decide⟩⟩)
    (by decide)).1

/-! ## Claim C2 -/

theorem entryExistsB_congr (sc sc2 : Scrape) (st : FilesState)
    (hd : sc2.dateStr = sc.dateStr) (hr : sc2.rawPatch = sc.rawPatch)
    (hp : sc2.patchStr = sc.patchStr) :
    entryExistsB sc2 st = entryExistsB sc st := by
  rw [entryExistsB, entryExistsB, hd, hr, hp]

/-- Claim C2: normal-mode idempotency — after a completed normal-mode run,
a second normal-mode run observing the same release (same date, raw patch
and derived slug) performs no downloads and leaves every bookkeeping file
unchanged, because the ledger entry and sidecar already match and the
documentation line already exists. -/
theorem c2_normal_idempotent (sc sc2 : Scrape) (st0 : FilesState)
    (h1 : sc.metaFound = true) (h2 : sc.parentFound = true)
    (hbtn : 3 ≤ sc.buttonCount)
    (hclean : ScrapeClean sc)
    (hcr : '\r' ∉ st0.grids.getD [])
    (hd2 : sc2.dateStr = sc.dateStr) (hr2 : sc2.rawPatch = sc.rawPatch)
    (hp2 : sc2.patchStr = sc.patchStr) :
    runMain false false sc2 (runMain false false sc st0).files =
      ⟨(runMain false false sc st0).files, 0⟩ := by
  obtain ⟨hdok, hpok, hrawne, hps, hn0, hn1, hn2⟩ := hclean
  have hdatene : sc.dateStr ≠ [] := DateOk_ne_nil _ hdok
  by_cases hm2 : sc2.metaFound = true
  swap
  · rw [runMain_no_meta false false sc2 _
      (by revert hm2; cases sc2.metaFound <;> simp)]
  by_cases hpf2 : sc2.parentFound = true
  swap
  · rw [runMain_no_parent false false sc2 _ hm2
      (by revert hpf2; cases sc2.parentFound <;> simp)]
  have hfresh : readLastUpdateFile
      (some (writeLastUpdateFile sc.rawPatch sc.dateStr)) =
      some ⟨sc.rawPatch, sc.dateStr⟩ :=
    readLastUpdateFile_write sc.rawPatch sc.dateStr hpok.2.2 hdok.1.2.2
      hpok.1 hdok.1.1 hrawne hdatene
  have hfreshsame : ((⟨sc.rawPatch, sc.dateStr⟩ : LastUpd).date == sc2.dateStr &&
      ((⟨sc.rawPatch, sc.dateStr⟩ : LastUpd).patch == sc2.rawPatch ||
        (⟨sc.rawPatch, sc.dateStr⟩ : LastUpd).patch == sc2.patchStr)) = true := by
    show (sc.dateStr == sc2.dateStr && _) = true
    rw [hd2, hr2]
    simp
  have hrun2 : ∀ (g : Option Str) (r0 : Option Str),
      entryExistsB sc2
        ⟨g, some (writeLastUpdateFile sc.rawPatch sc.dateStr),
          some (updateReadmeLastUpdate sc.rawPatch sc.dateStr r0)⟩ = true →
      runMain false false sc2
        ⟨g, some (writeLastUpdateFile sc.rawPatch sc.dateStr),
          some (updateReadmeLastUpdate sc.rawPatch sc.dateStr r0)⟩ =
      ⟨⟨g, some (writeLastUpdateFile sc.rawPatch sc.dateStr),
        some (updateReadmeLastUpdate sc.rawPatch sc.dateStr r0)⟩, 0⟩ := by
    intro g r0 he1
    rw [runMain_skip_same sc2 _ ⟨sc.rawPatch, sc.dateStr⟩ hm2 hpf2 he1
      hfresh hfreshsame]
    rw [ensureReadme_of_containsM _ _ _
      (containsM_updateReadme sc.rawPatch sc.dateStr r0)]
  by_cases he0 : entryExistsB sc st0 = true
  · rcases hlr : readLastUpdateFile st0.lastUpdate with _ | lr
    · -- run 1 refreshed both sidecars (sidecar was missing)
      rw [runMain_skip_stale sc st0 h1 h2 he0 (by rw [isSameB, hlr])]
      exact hrun2 st0.grids st0.readme (by
        rw [entryExistsB_congr sc sc2 _ hd2 hr2 hp2]
        rw [entryExistsB] at he0 ⊢
        exact he0)
    · by_cases hsame : (lr.date == sc.dateStr &&
          (lr.patch == sc.rawPatch || lr.patch == sc.patchStr)) = true
      · -- run 1 only ensured the README line
        rw [runMain_skip_same sc st0 lr h1 h2 he0 hlr hsame]
        have he1 : entryExistsB sc2
            ⟨st0.grids, st0.lastUpdate,
              some (ensureReadmeHasLastUpdate lr.patch lr.date st0.readme)⟩ = true := by
          rw [entryExistsB_congr sc sc2 _ hd2 hr2 hp2]
          rw [entryExistsB] at he0 ⊢
          exact he0
        have hsame2 : (lr.date == sc2.dateStr &&
            (lr.patch == sc2.rawPatch || lr.patch == sc2.patchStr)) = true := by
          rw [hd2, hr2, hp2]
          exact hsame
        rw [runMain_skip_same sc2 _ lr hm2 hpf2 he1
          (show readLastUpdateFile st0.lastUpdate = some lr from hlr) hsame2]
        rw [ensureReadme_of_containsM _ _ _
          (containsM_ensureReadme lr.patch lr.date st0.readme)]
      · -- run 1 rewrote both sidecars from the scrape
        rw [runMain_skip_stale sc st0 h1 h2 he0
          (by rw [isSameB, hlr]; simpa using hsame)]
        exact hrun2 st0.grids st0.readme (by
          rw [entryExistsB_congr sc sc2 _ hd2 hr2 hp2]
          rw [entryExistsB] at he0 ⊢
          exact he0)
  · -- run 1 downloaded, inserted the row and rewrote both sidecars
    have he0f : entryExistsB sc st0 = false := by simpa using he0
    rw [runMain_download_insert false sc st0 h1 h2 (by omega) he0f (by simp)]
    exact hrun2 (some (insertRowIntoMd (st0.grids.getD []) (normalNewRow sc)))
      st0.readme (by
        rw [entryExistsB]
        show hasEntryInMd (insertRowIntoMd (st0.grids.getD []) (normalNewRow sc))
          sc2.dateStr sc2.rawPatch (some sc2.patchStr) = true
        rw [hd2, hr2, hp2]
        exact entryExists_after_insert sc _ _ hcr
          ⟨hdok, hpok, hrawne, hps, hn0, hn1, hn2⟩)

/-- Witness for C2: the second normal run on the concrete example state is
an exact no-op with zero downloads. -/
theorem c2_witness :
    runMain false false
      ⟨true, strOf "2025-10-12", strOf "7.39d", strOf "p7_39d", true, 3,
        strOf "a", strOf "b", strOf "c"⟩
      (runMain false false
        ⟨true, strOf "2025-10-12", strOf "7.39d", strOf "p7_39d", true, 3,
          strOf "a", strOf "b", strOf "c"⟩
        ⟨none, none, none⟩).files =
      ⟨(runMain false false
        ⟨true, strOf "2025-10-12", strOf "7.39d", strOf "p7_39d", true, 3,
          strOf "a", strOf "b", strOf "c"⟩
        ⟨none, none, none⟩).files, 0⟩ :=
  c2_normal_idempotent
    ⟨true, strOf "2025-10-12", strOf "7.39d", strOf "p7_39d", true, 3,
      strOf "a", strOf "b", strOf "c"⟩
    ⟨true, strOf "2025-10-12", strOf "7.39d", strOf "p7_39d", true, 3,
      strOf "a", strOf "b", strOf "c"⟩
    ⟨none, none, none⟩
    (by decide) (by decide) (by decide)
    (by
      refine ⟨⟨⟨by decide, by decide, by decide, by decide⟩, by decide, by decide⟩,
        ⟨by decide, by decide, by decide, by decide⟩, by decide,
        ⟨by decide, by decide⟩, ⟨by decide, by decide⟩, ⟨by decide, by decide⟩,
        ⟨by decide, by decide⟩⟩)
    (by decide) rfl rfl rfl

/-! ## Claim C7 -/

/-- A row consisting solely of dashes/pipes (and spaces), with at least one
dash — the separator-row shape the claim describes. -/
def solelyDashesPipes (l : Str) : Bool :=
  l.all (fun c => c = '-' || c = '|' || c = ' ') && l.any (fun c => c = '-')

/-- The separator-location rule as the claim (and spec §4.2) words it: the
separator is the row immediately following the header row (index 1), and it
must consist solely of dashes/pipes. -/
def specFindSep (lines : List Str) : Option Nat :=
  if solelyDashesPipes (lines.getD 1 []) && decide (2 ≤ lines.length) then some 1
  else none

/-- The claim-worded parser: entries are the rows after the spec-located
separator, read with the same row loop as the code. -/
def specParseEntries (content : Str) : List (Str × Str) :=
  match specFindSep (splitLinesL content) with
  | none => []
  | some i => ((splitLinesL content).drop (i + 1)).filterMap rowPairOf

/-- Counterexample to C7 as stated: the code accepts "-- x" (not solely
dashes/pipes, not following any header) as the separator and parses the
next row as an entry, while a parser following the claim's description
finds no separator and no entries. -/
theorem c7_counterexample :
    parseFirstRowFromMd (strOf "-- x\n| 2025-01-01 | 7.39d | a |") =
      some ⟨some (strOf "2025-01-01"), some (strOf "7.39d")⟩ ∧
    hasEntryInMd (strOf "-- x\n| 2025-01-01 | 7.39d | a |")
      (strOf "2025-01-01") (strOf "7.39d") none = true ∧
    solelyDashesPipes (strOf "-- x") = false ∧
    specParseEntries (strOf "-- x\n| 2025-01-01 | 7.39d | a |") = [] := by
  refine ⟨?_, ?_, ?_, ?_⟩ <;> decide

theorem rowHit_via_rowPairOf (d a : Str) (b : Option Str) (line : Str) :
    rowHit d a b line =
      (match rowPairOf line with
       | none => false
       | some q => q.1 == d && (q.2 == a ||
           (match b with | some bb => q.2 == bb | none => false))) := by
  rcases hq : rowPairOf line with _ | q
  · show rowHit d a b line = false
    rw [rowPairOf] at hq
    simp only [rowHit]
    by_cases hb : (trimL line == ([] : Str) || trimL line == ['|']) = true
    · rw [if_pos hb]
    · rw [if_neg hb] at hq ⊢
      by_cases hlen : ((splitOnCharL '|' (trimL line)).map trimL).length < 3
      · rw [if_pos hlen]
      · rw [if_neg hlen] at hq
        exact absurd hq (by simp)
  · show rowHit d a b line = (q.1 == d && (q.2 == a ||
      (match b with | some bb => q.2 == bb | none => false)))
    rw [rowPairOf] at hq
    simp only [rowHit]
    by_cases hb : (trimL line == ([] : Str) || trimL line == ['|']) = true
    · rw [if_pos hb] at hq
      exact absurd hq (by simp)
    · rw [if_neg hb] at hq
      rw [if_neg hb]
      by_cases hlen : ((splitOnCharL '|' (trimL line)).map trimL).length < 3
      · rw [if_pos hlen] at hq
        exact absurd hq (by simp)
      · rw [if_neg hlen] at hq
        rw [if_neg hlen]
        injection hq with hq2
        rw [← hq2]

theorem any_rowHit_via_entries (d a : Str) (b : Option Str) (L : List Str) :
    L.any (rowHit d a b) =
      (L.filterMap rowPairOf).any (fun q => q.1 == d && (q.2 == a ||
        (match b with | some bb => q.2 == bb | none => false))) := by
  induction L with
  | nil => rfl
  | cons l ls ih =>
    rw [List.any_cons, rowHit_via_rowPairOf]
    rcases hq : rowPairOf l with _ | q
    · rw [List.filterMap_cons_none hq, ih]
      simp
    · rw [List.filterMap_cons_some hq, List.any_cons, ih]

/-- Claim C7 as amended: the separator is the first row that, after every
pipe is replaced by a space, begins with optional whitespace followed by at
least two dashes (no whole-row or header-adjacency requirement); the
existence scan then treats the rows after it exactly as the entries list —
blank rows and rows with fewer than 3 trimmed pipe-columns are skipped,
never an error. -/
theorem c7_parsing_characterization :
    (∀ ln : Str, isSepLine ln = true ↔
      ∃ t2, (ln.map pipeToSpace).dropWhile jsWs = '-' :: '-' :: t2) ∧
    (∀ (content d a : Str) (b : Option Str),
      hasEntryInMd content d a b =
        (entriesPairs content).any (fun q => q.1 == d && (q.2 == a ||
          (match b with | some bb => q.2 == bb | none => false)))) ∧
    (∀ line : Str, trimL line = [] → rowPairOf line = none) ∧
    (∀ line : Str, ((splitOnCharL '|' (trimL line)).map trimL).length < 3 →
      rowPairOf line = none) := by
  refine ⟨?_, ?_, ?_, ?_⟩
  · intro ln
    rw [isSepLine]
    constructor
    · intro h
      rcases hdw : (ln.map pipeToSpace).dropWhile jsWs with _ | ⟨c1, t1⟩
      · rw [hdw] at h
        simp at h
      · rcases t1 with _ | ⟨c2, t2⟩
        · rw [hdw] at h
          simp [List.take] at h
        · rw [hdw] at h
          have h2 : [c1, c2] = ['-', '-'] := by
            simpa [List.take] using h
          have hc1 : c1 = '-' := by
            injection h2
          have hc2 : c2 = '-' := by
            injection h2 with _ h3
            injection h3
          subst hc1
          subst hc2
          exact ⟨t2, rfl⟩
    · rintro ⟨t2, ht⟩
      rw [ht]
      rfl
  · intro content d a b
    rw [hasEntryInMd, entriesPairs]
    by_cases hc : (content == ([] : Str)) = true
    · rw [if_pos hc, if_pos hc]
      rfl
    · rw [if_neg hc, if_neg hc]
      rcases hidx : findIdxP isSepLine (splitLinesL content) with _ | i
      · rfl
      · exact any_rowHit_via_entries d a b _
  · intro line h
    rw [rowPairOf, if_pos (by rw [h]; simp)]
  · intro line h
    rw [rowPairOf]
    by_cases hb : (trimL line == ([] : Str) || trimL line == ['|']) = true
    · rw [if_pos hb]
    · rw [if_neg hb, if_pos h]

/-- Witness for C7 (amended) at concrete rows and tables. -/
theorem c7_witness :
    isSepLine (strOf "| ---- | --- |") = true ∧
    hasEntryInMd (strOf "| H | H | H |\n| -- | -- | -- |\n| d | p | x |\nbad")
      (strOf "d") (strOf "p") none =
      (entriesPairs (strOf "| H | H | H |\n| -- | -- | -- |\n| d | p | x |\nbad")).any
        (fun q => q.1 == strOf "d" && (q.2 == strOf "p" || false)) ∧
    rowPairOf (strOf "   ") = none ∧
    rowPairOf (strOf "bad") = none := by
  refine ⟨?_, ?_, ?_, ?_⟩
  · exact (c7_parsing_characterization.1 (strOf "| ---- | --- |")).mpr
      ⟨strOf "--   ---  ", by decide⟩
  · exact (c7_parsing_characterization.2.1
      (strOf "| H | H | H |\n| -- | -- | -- |\n| d | p | x |\nbad")
      (strOf "d") (strOf "p") none).trans (by decide)
  · exact c7_parsing_characterization.2.2.1 (strOf "   ") (by decide)
  · exact c7_parsing_characterization.2.2.2 (strOf "bad") (by decide)

/-! ## Claim C8 -/

/-- A full ledger entry: date, raw patch, and three optional link cells. -/
structure LedgerEntry where
  date : Str
  patchRaw : Str
  link1 : Option Str
  link2 : Option Str
  link3 : Option Str
deriving DecidableEq

/-- Modelled from the spec: the full-entry parse of one row (Ledger Codec,
§4.2).  The repository's code parses only the date/patch columns
(parseFirstRowFromMd, hasEntryInMd); the links-preserving entries[] parse
is specified but not implemented under src, so the row is read here as the
spec words it — split on pipes, trimmed, fewer than 3 columns ignored,
empty link cells read back as missing links. -/
def parseEntryOfLine (line : Str) : Option LedgerEntry :=
  if trimL line == [] then none
  else
    if ((splitOnCharL '|' (trimL line)).map trimL).length < 3 then none
    else
      some ⟨((splitOnCharL '|' (trimL line)).map trimL).getD 1 [],
            ((splitOnCharL '|' (trimL line)).map trimL).getD 2 [],
            strOpt (((splitOnCharL '|' (trimL line)).map trimL).getD 3 []),
            strOpt (((splitOnCharL '|' (trimL line)).map trimL).getD 4 []),
            strOpt (((splitOnCharL '|' (trimL line)).map trimL).getD 5 [])⟩

/-- Modelled from the spec: parse(text) — locate the separator with the
codec's own detector and read every later row with parseEntryOfLine. -/
def parseLedgerEntries (content : Str) : List LedgerEntry :=
  match findIdxP isSepLine (splitLinesL content) with
  | none => []
  | some i => ((splitLinesL content).drop (i + 1)).filterMap parseEntryOfLine

/-- One serialized row, rendered by the code's row template with a missing
link rendered as an empty cell. -/
def serializeEntry (e : LedgerEntry) : Str :=
  renderRow e.date e.patchRaw (e.link1.getD []) (e.link2.getD []) (e.link3.getD [])

/-- A serialized ledger: header, separator, one row per entry. -/
def serializeEntries (es : List LedgerEntry) : Str :=
  ledgerString (es.map serializeEntry)

/-- A well-formed link cell: absent, or a nonempty well-behaved cell. -/
def LinkOk : Option Str → Prop
  | none => True
  | some l => CellOk l ∧ l ≠ []

instance decLinkOk : (o : Option Str) → Decidable (LinkOk o)
  | none => isTrue trivial
  | some _ => inferInstanceAs (Decidable (_ ∧ _))

/-- A well-formed ledger entry. -/
def EntryOk (e : LedgerEntry) : Prop :=
  CellOk e.date ∧ CellOk e.patchRaw ∧ LinkOk e.link1 ∧ LinkOk e.link2 ∧
    LinkOk e.link3

instance decEntryOk (e : LedgerEntry) : Decidable (EntryOk e) :=
  inferInstanceAs (Decidable (_ ∧ _ ∧ _ ∧ _ ∧ _))

theorem linkCellOk (o : Option Str) (h : LinkOk o) :
    trimL (o.getD []) = o.getD [] ∧ '|' ∉ o.getD [] ∧ lineClean (o.getD []) ∧
      strOpt (o.getD []) = o := by
  rcases o with _ | l
  · exact ⟨rfl, by simp, ⟨by simp, by simp⟩, rfl⟩
  · obtain ⟨⟨ht, hp, hc⟩, hne⟩ := h
    exact ⟨ht, hp, hc, by rw [Option.getD_some, strOpt, if_neg (by simpa using hne)]⟩

theorem splitPipe_cellTail (c1 c2 c3 : Str)
    (h1 : '|' ∉ c1) (h2 : '|' ∉ c2) (h3 : '|' ∉ c3) :
    splitOnCharL '|' (' ' :: (c1 ++ ' ' :: '|' :: ' ' ::
        (c2 ++ ' ' :: '|' :: ' ' :: (c3 ++ [' ', '|'])))) =
      [' ' :: c1 ++ [' '], ' ' :: c2 ++ [' '], ' ' :: c3 ++ [' '], []] := by
  have e1 : ' ' :: (c1 ++ ' ' :: '|' :: ' ' ::
      (c2 ++ ' ' :: '|' :: ' ' :: (c3 ++ [' ', '|']))) =
      (' ' :: c1 ++ [' ']) ++ '|' :: (' ' ::
        (c2 ++ ' ' :: '|' :: ' ' :: (c3 ++ [' ', '|']))) := by
    simp
  have e2 : ' ' :: (c2 ++ ' ' :: '|' :: ' ' :: (c3 ++ [' ', '|'])) =
      (' ' :: c2 ++ [' ']) ++ '|' :: (' ' :: (c3 ++ [' ', '|'])) := by
    simp
  have e3 : ' ' :: (c3 ++ [' ', '|']) = (' ' :: c3 ++ [' ']) ++ '|' :: [] := by
    simp
  have m1 : '|' ∉ ' ' :: c1 ++ [' '] := by
    intro hm
    rcases List.mem_cons.mp hm with hh | hh
    · exact absurd hh.symm (by decide)
    · rcases List.mem_append.mp hh with hh2 | hh2
      · exact h1 hh2
      · exact absurd (List.mem_singleton.mp hh2).symm (by decide)
  have m2 : '|' ∉ ' ' :: c2 ++ [' '] := by
    intro hm
    rcases List.mem_cons.mp hm with hh | hh
    · exact absurd hh.symm (by decide)
    · rcases List.mem_append.mp hh with hh2 | hh2
      · exact h2 hh2
      · exact absurd (List.mem_singleton.mp hh2).symm (by decide)
  have m3 : '|' ∉ ' ' :: c3 ++ [' '] := by
    intro hm
    rcases List.mem_cons.mp hm with hh | hh
    · exact absurd hh.symm (by decide)
    · rcases List.mem_append.mp hh with hh2 | hh2
      · exact h3 hh2
      · exact absurd (List.mem_singleton.mp hh2).symm (by decide)
  rw [e1, splitOnCharL_append_sep '|' _ _ m1]
  rw [e2, splitOnCharL_append_sep '|' _ _ m2]
  rw [e3, splitOnCharL_append_sep '|' _ _ m3]
  rfl

theorem parseEntry_serializeEntry (e : LedgerEntry) (h : EntryOk e) :
    parseEntryOfLine (serializeEntry e) = some e := by
  obtain ⟨hd, hp, hl1, hl2, hl3⟩ := h
  obtain ⟨ht1, hpipe1, hc1, hs1⟩ := linkCellOk e.link1 hl1
  obtain ⟨ht2, hpipe2, hc2, hs2⟩ := linkCellOk e.link2 hl2
  obtain ⟨ht3, hpipe3, hc3, hs3⟩ := linkCellOk e.link3 hl3
  rw [parseEntryOfLine, serializeEntry]
  rw [trimL_renderRow]
  rw [if_neg (by rw [renderRow_beq_nil]; simp)]
  have hsplit : (splitOnCharL '|' (renderRow e.date e.patchRaw
      (e.link1.getD []) (e.link2.getD []) (e.link3.getD []))).map trimL =
      [[], e.date, e.patchRaw, e.link1.getD [], e.link2.getD [],
        e.link3.getD [], []] := by
    rw [splitPipe_renderRow _ _ _ _ _ hd.2.1 hp.2.1]
    rw [splitPipe_cellTail _ _ _ hpipe1 hpipe2 hpipe3]
    simp only [List.map_cons, List.map_nil]
    rw [trimL_nil, trimL_pad, trimL_pad, trimL_pad, trimL_pad, trimL_pad,
      hd.1, hp.1, ht1, ht2, ht3]
  rw [hsplit]
  rw [if_neg (by simp)]
  simp only [List.getD]
  simp only [List.get?]
  show some ⟨e.date, e.patchRaw, strOpt (e.link1.getD []),
    strOpt (e.link2.getD []), strOpt (e.link3.getD [])⟩ = some e
  rw [hs1, hs2, hs3]

/-- Claim C8 (parse modelled from the spec): the ledger codec round-trips —
serializing any well-formed entry list as header, separator and one
rendered row per entry, then parsing, returns exactly the original
entries, including entries with empty link cells. -/
theorem c8_round_trip (es : List LedgerEntry) (h : ∀ e ∈ es, EntryOk e) :
    parseLedgerEntries (serializeEntries es) = es := by
  have hclean : ∀ r ∈ es.map serializeEntry, lineClean r := by
    intro r hr
    obtain ⟨e, he, hre⟩ := List.mem_map.mp hr
    obtain ⟨hd, hp, hl1, hl2, hl3⟩ := h e he
    rw [← hre]
    exact lineClean_renderRow _ _ _ _ _ hd.2.2 hp.2.2
      (linkCellOk e.link1 hl1).2.2.1 (linkCellOk e.link2 hl2).2.2.1
      (linkCellOk e.link3 hl3).2.2.1
  rw [serializeEntries, parseLedgerEntries]
  rw [splitLinesL_ledgerString _ hclean, findSep_ledgerLines]
  show ((es.map serializeEntry ++ [[]]).filterMap parseEntryOfLine) = es
  rw [List.filterMap_append]
  rw [show List.filterMap parseEntryOfLine [[]] = [] from rfl]
  rw [List.append_nil]
  induction es with
  | nil => rfl
  | cons e es2 ih =>
    rw [List.map_cons, List.filterMap_cons_some
      (parseEntry_serializeEntry e (h e (List.mem_cons_self e es2)))]
    rw [ih (fun x hx => h x (List.mem_cons_of_mem e hx)) (by
      intro r hr
      exact hclean r (by
        rw [List.map_cons]
        exact List.mem_cons_of_mem _ hr))]

/-- Witness for C8: a two-entry ledger, one entry with all links missing,
round-trips exactly. -/
theorem c8_witness :
    parseLedgerEntries (serializeEntries
      [⟨strOf "2025-10-12", strOf "7.39d",
          some (strOf "[🔗 Download](grids/a.json)"), none,
          some (strOf "[🔗 Download](grids/c.json)")⟩,
        ⟨strOf "2025-09-01", strOf "7.39c", none, none, none⟩]) =
      [⟨strOf "2025-10-12", strOf "7.39d",
          some (strOf "[🔗 Download](grids/a.json)"), none,
          some (strOf "[🔗 Download](grids/c.json)")⟩,
        ⟨strOf "2025-09-01", strOf "7.39c", none, none, none⟩] :=
  c8_round_trip _ (by
    intro e he
    rcases List.mem_cons.mp he with hh | hh
    · rw [hh]
      refine ⟨⟨by decide, by decide, by decide, by decide⟩,
        ⟨by decide, by decide, by decide, by decide⟩,
        ⟨⟨by decide, by decide, by decide, by decide⟩, by decide⟩, trivial,
        ⟨⟨by decide, by decide, by decide, by decide⟩, by decide⟩⟩
    · rw [List.mem_singleton.mp hh]
      refine ⟨⟨by decide, by decide, by decide, by decide⟩,
        ⟨by decide, by decide, by decide, by decide⟩, trivial, trivial, trivial⟩)

/-! ## Claim C3: sequences of normal-mode runs -/

/-- One observed release together with the three suggested filenames of
that run's downloads. -/
structure RunObs where
  date : Str
  patch : Str
  n0 : Str
  n1 : Str
  n2 : Str

/-- The scrape of a structurally successful normal run observing o. -/
def obsScrape (o : RunObs) : Scrape :=
  ⟨true, o.date, o.patch, patchSlug o.patch, true, 3, o.n0, o.n1, o.n2⟩

/-- A sequence of completed normal-mode runs. -/
def runSeq (obs : List RunObs) (st : FilesState) : FilesState :=
  obs.foldl (fun s o => (runMain false false (obsScrape o) s).files) st

/-- The release identity of an observation. -/
def pairOf (o : RunObs) : Str × Str := (o.date, o.patch)

/-- The unique observed pairs, most recently first-seen first: the list a
row-per-unique-release ledger must hold. -/
def observedUnique (l : List (Str × Str)) : List (Str × Str) :=
  l.foldl (fun acc q => if q ∈ acc then acc else q :: acc) []

/-- Well-behaved observation: clean date and patch, clean filenames. -/
def ObsClean (o : RunObs) : Prop :=
  DateOk o.date ∧ CellOk o.patch ∧ o.patch ≠ [] ∧
    lineClean o.n0 ∧ lineClean o.n1 ∧ lineClean o.n2

theorem lineClean_patchSlug (p : Str) (h : lineClean p) :
    lineClean (patchSlug p) := by
  constructor <;>
  · intro hc
    rw [patchSlug] at hc
    rcases List.mem_cons.mp hc with hh | hh
    · exact absurd hh (by decide)
    · obtain ⟨y, hy, hfy⟩ := List.mem_map.mp hh
      by_cases hd : y = '.'
      · rw [hd] at hfy
        simp at hfy
      · rw [if_neg hd] at hfy
        rw [hfy] at hy
        first
        | exact h.1 hy
        | exact h.2 hy

theorem ScrapeClean_obsScrape (o : RunObs) (h : ObsClean o) :
    ScrapeClean (obsScrape o) := by
  obtain ⟨hd, hp, hne, hn0, hn1, hn2⟩ := h
  exact ⟨hd, hp, hne, lineClean_patchSlug o.patch hp.2.2, hn0, hn1, hn2⟩

/-- A normal-mode run with an existing ledger entry never touches the
ledger, whatever the sidecar state. -/
theorem runNormal_grids_of_entry (sc : Scrape) (st : FilesState)
    (h1 : sc.metaFound = true) (h2 : sc.parentFound = true)
    (he : entryExistsB sc st = true) :
    (runMain false false sc st).files.grids = st.grids := by
  rcases hlr : readLastUpdateFile st.lastUpdate with _ | lr
  · rw [runMain_skip_stale sc st h1 h2 he (by rw [isSameB, hlr])]
  · by_cases hsame : (lr.date == sc.dateStr &&
        (lr.patch == sc.rawPatch || lr.patch == sc.patchStr)) = true
    · rw [runMain_skip_same sc st lr h1 h2 he hlr hsame]
    · rw [runMain_skip_stale sc st h1 h2 he
        (by rw [isSameB, hlr]; simpa using hsame)]

/-- The ledger rows inserted by runs observing ins. -/
def rowsOf (ins : List RunObs) : List Str :=
  ins.map (fun o => normalNewRow (obsScrape o))

theorem rowsOf_clean (ins : List RunObs) (h : ∀ o ∈ ins, ObsClean o) :
    ∀ r ∈ rowsOf ins, lineClean r := by
  intro r hr
  obtain ⟨o, ho, hro⟩ := List.mem_map.mp hr
  rw [← hro]
  exact lineClean_normalNewRow _ (ScrapeClean_obsScrape o (h o ho))

theorem patchSlug_ne_self (p : Str) : p ≠ patchSlug p := by
  intro h
  have := congrArg List.length h
  rw [patchSlug] at this
  simp at this

/-- On a ledger built from clean, collision-free rows, the existence check
is exactly membership of the release pair. -/
theorem entryExists_ledger_iff (o : RunObs) (ins : List RunObs)
    (hins : ∀ o2 ∈ ins, ObsClean o2)
    (hcol : ∀ o2 ∈ ins, o2.date = o.date → o2.patch ≠ patchSlug o.patch) :
    hasEntryInMd (ledgerString (rowsOf ins)) o.date o.patch
        (some (patchSlug o.patch)) = true ↔
      pairOf o ∈ ins.map pairOf := by
  rw [hasEntryInMd_ledgerString _ _ _ _ (rowsOf_clean ins hins)]
  induction ins with
  | nil => simp [rowsOf]
  | cons o2 rest ih =>
    have ho2 := hins o2 (List.mem_cons_self o2 rest)
    rw [show rowsOf (o2 :: rest) = normalNewRow (obsScrape o2) :: rowsOf rest
      from rfl]
    rw [List.any_cons]
    rw [show normalNewRow (obsScrape o2) = renderRow o2.date o2.patch
      (linkFile (some (savedFileName o2.n0 o2.date (patchSlug o2.patch))))
      (linkFile (some (savedFileName o2.n1 o2.date (patchSlug o2.patch))))
      (linkFile (some (savedFileName o2.n2 o2.date (patchSlug o2.patch))))
      from rfl]
    rw [rowHit_renderRow _ _ _ _ _ _ _ _ ho2.1.1 ho2.2.1]
    rw [List.map_cons, List.mem_cons]
    constructor
    · intro h
      rcases Bool.or_eq_true_iff.mp h with hh | hh
      · left
        rcases Bool.and_eq_true_iff.mp hh with ⟨hda, hpa⟩
        have hdd : o2.date = o.date := by simpa using hda
        rcases Bool.or_eq_true_iff.mp hpa with hp1 | hp1
        · have : o2.patch = o.patch := by simpa using hp1
          rw [pairOf, pairOf, hdd, this]
        · have : o2.patch = patchSlug o.patch := by simpa using hp1
          exact absurd this (hcol o2 (List.mem_cons_self o2 rest) hdd)
      · right
        exact (ih (fun x hx => hins x (List.mem_cons_of_mem o2 hx))
          (fun x hx => hcol x (List.mem_cons_of_mem o2 hx))).mp hh
    · intro h
      rcases h with hh | hh
      · have hdd : o2.date = o.date := (congrArg Prod.fst hh).symm
        have hpp : o2.patch = o.patch := (congrArg Prod.snd hh).symm
        apply Bool.or_eq_true_iff.mpr
        left
        rw [hdd, hpp]
        simp
      · apply Bool.or_eq_true_iff.mpr
        right
        exact (ih (fun x hx => hins x (List.mem_cons_of_mem o2 hx))
          (fun x hx => hcol x (List.mem_cons_of_mem o2 hx))).mpr hh

theorem pairs_of_ledger (ins : List RunObs) (hins : ∀ o2 ∈ ins, ObsClean o2) :
    entriesPairs (ledgerString (rowsOf ins)) = ins.map pairOf := by
  rw [entriesPairs_ledgerString _ (rowsOf_clean ins hins)]
  induction ins with
  | nil => rfl
  | cons o2 rest ih =>
    have ho2 := hins o2 (List.mem_cons_self o2 rest)
    rw [show rowsOf (o2 :: rest) = normalNewRow (obsScrape o2) :: rowsOf rest
      from rfl]
    rw [List.filterMap_cons_some (by
      show rowPairOf (renderRow o2.date o2.patch _ _ _) = some (o2.date, o2.patch)
      exact rowPairOf_renderRow _ _ _ _ _ ho2.1.1 ho2.2.1)]
    rw [ih (fun x hx => hins x (List.mem_cons_of_mem o2 hx))]
    rfl

/-- Loop invariant for sequences of completed normal-mode runs: starting
from a state whose ledger holds exactly the rows of ins (newest first, or
no ledger when ins is empty), processing obs leaves a ledger whose rows
are the deduplicating fold of the observed pairs onto the pairs of ins. -/
theorem c3_loop (obs : List RunObs) :
    ∀ (ins : List RunObs) (st : FilesState),
      (∀ o ∈ obs, ObsClean o) →
      (∀ o ∈ ins, ObsClean o) →
      (∀ o ∈ obs, ∀ o2 ∈ ins, o2.date = o.date → o2.patch ≠ patchSlug o.patch) →
      (∀ o ∈ obs, ∀ o2 ∈ obs, o2.date = o.date → o2.patch ≠ patchSlug o.patch) →
      (st.grids = none ∧ ins = [] ∨ st.grids = some (ledgerString (rowsOf ins))) →
      ∃ ins2 : List RunObs,
        (∀ o ∈ ins2, ObsClean o) ∧
        ((runSeq obs st).grids = none ∧ ins2 = [] ∨
          (runSeq obs st).grids = some (ledgerString (rowsOf ins2))) ∧
        ins2.map pairOf =
          (obs.map pairOf).foldl
            (fun acc q => if q ∈ acc then acc else q :: acc)
            (ins.map pairOf) := by
  induction obs with
  | nil =>
    intro ins st _ hins _ _ hst
    exact ⟨ins, hins, hst, rfl⟩
  | cons o rest ih =>
    intro ins st hobs hins hcol2 hcolobs hst
    have ho : ObsClean o := hobs o (List.mem_cons_self o rest)
    have hrest : ∀ x ∈ rest, ObsClean x :=
      fun x hx => hobs x (List.mem_cons_of_mem o hx)
    have hcolobsR : ∀ x ∈ rest, ∀ y ∈ rest,
        y.date = x.date → y.patch ≠ patchSlug x.patch :=
      fun x hx y hy =>
        hcolobs x (List.mem_cons_of_mem o hx) y (List.mem_cons_of_mem o hy)
    have hseq : runSeq (o :: rest) st =
        runSeq rest (runMain false false (obsScrape o) st).files := rfl
    by_cases hmem : pairOf o ∈ ins.map pairOf
    · -- the release is already in the ledger: the run leaves it untouched
      have hgr : st.grids = some (ledgerString (rowsOf ins)) := by
        rcases hst with ⟨_, hnil⟩ | h
        · rw [hnil] at hmem
          simp at hmem
        · exact h
      have he : entryExistsB (obsScrape o) st = true := by
        rw [entryExistsB, hgr]
        show hasEntryInMd (ledgerString (rowsOf ins)) o.date o.patch
          (some (patchSlug o.patch)) = true
        exact (entryExists_ledger_iff o ins hins
          (fun o2 ho2 => hcol2 o (List.mem_cons_self o rest) o2 ho2)).mpr hmem
      have hkeep := runNormal_grids_of_entry (obsScrape o) st rfl rfl he
      have hst' : ((runMain false false (obsScrape o) st).files).grids = none ∧
          ins = [] ∨
          ((runMain false false (obsScrape o) st).files).grids =
            some (ledgerString (rowsOf ins)) := by
        rw [hkeep, hgr]
        exact Or.inr rfl
      obtain ⟨ins2, h1, h2, h3⟩ := ih ins _ hrest hins
        (fun x hx => hcol2 x (List.mem_cons_of_mem o hx)) hcolobsR hst'
      refine ⟨ins2, h1, ?_, ?_⟩
      · rw [hseq]
        exact h2
      · rw [List.map_cons, List.foldl_cons]
        show List.map pairOf ins2 =
          List.foldl (fun acc q => if q ∈ acc then acc else q :: acc)
            (if pairOf o ∈ List.map pairOf ins then List.map pairOf ins
              else pairOf o :: List.map pairOf ins)
            (List.map pairOf rest)
        rw [if_pos hmem]
        exact h3
    · -- the release is new: the run splices one row on top
      have he : entryExistsB (obsScrape o) st = false := by
        rcases hst with ⟨hnone, _⟩ | hgr
        · rw [entryExistsB, hnone]
          rfl
        · rw [entryExistsB, hgr]
          refine Bool.eq_false_iff.mpr (fun h => hmem ?_)
          exact (entryExists_ledger_iff o ins hins
            (fun o2 ho2 => hcol2 o (List.mem_cons_self o rest) o2 ho2)).mp h
      have hrun := runMain_download_insert false (obsScrape o) st rfl rfl
        (Nat.lt_irrefl 3) he (by rfl)
      have hst' : ((runMain false false (obsScrape o) st).files).grids =
          some (ledgerString (rowsOf (o :: ins))) := by
        rw [hrun]
        rcases hst with ⟨hnone, hnil⟩ | hgr
        · rw [hnil, hnone]
          show some (insertRowIntoMd [] (normalNewRow (obsScrape o))) = _
          rw [insertRow_nil]
          rfl
        · rw [hgr]
          show some (insertRowIntoMd (ledgerString (rowsOf ins))
            (normalNewRow (obsScrape o))) = _
          rw [insertRow_ledgerString (rowsOf ins) _ (rowsOf_clean ins hins)]
          rfl
      have hins' : ∀ x ∈ o :: ins, ObsClean x := by
        intro x hx
        rcases List.mem_cons.mp hx with h' | h'
        · rw [h']
          exact ho
        · exact hins x h'
      have hcol2n : ∀ x ∈ rest, ∀ o2 ∈ o :: ins,
          o2.date = x.date → o2.patch ≠ patchSlug x.patch := by
        intro x hx o2 ho2
        rcases List.mem_cons.mp ho2 with h' | h'
        · rw [h']
          exact hcolobs x (List.mem_cons_of_mem o hx) o (List.mem_cons_self o rest)
        · exact hcol2 x (List.mem_cons_of_mem o hx) o2 h'
      obtain ⟨ins2, h1, h2, h3⟩ := ih (o :: ins) _ hrest hins' hcol2n hcolobsR
        (Or.inr hst')
      refine ⟨ins2, h1, ?_, ?_⟩
      · rw [hseq]
        exact h2
      · rw [List.map_cons, List.foldl_cons]
        show List.map pairOf ins2 =
          List.foldl (fun acc q => if q ∈ acc then acc else q :: acc)
            (if pairOf o ∈ List.map pairOf ins then List.map pairOf ins
              else pairOf o :: List.map pairOf ins)
            (List.map pairOf rest)
        rw [if_neg hmem]
        exact h3

theorem foldl_dedup_nodup (l : List (Str × Str)) :
    ∀ acc : List (Str × Str), acc.Nodup →
      (l.foldl (fun acc q => if q ∈ acc then acc else q :: acc) acc).Nodup := by
  induction l with
  | nil =>
    intro acc h
    exact h
  | cons q rest ih =>
    intro acc h
    rw [List.foldl_cons]
    show (List.foldl (fun acc q => if q ∈ acc then acc else q :: acc)
      (if q ∈ acc then acc else q :: acc) rest).Nodup
    by_cases hq : q ∈ acc
    · rw [if_pos hq]
      exact ih acc h
    · rw [if_neg hq]
      exact ih _ (List.nodup_cons.mpr ⟨hq, h⟩)

instance decObsClean (o : RunObs) : Decidable (ObsClean o) :=
  inferInstanceAs (Decidable (_ ∧ _ ∧ _ ∧ _ ∧ _ ∧ _))

def c3ObsA : RunObs :=
  ⟨strOf "2025-01-01", strOf "p7_39d",
    strOf "a.json", strOf "b.json", strOf "c.json"⟩

def c3ObsB : RunObs :=
  ⟨strOf "2025-01-01", strOf "7.39d",
    strOf "a.json", strOf "b.json", strOf "c.json"⟩

set_option maxRecDepth 40000 in
/-- C3 counterexample: two completed normal-mode runs observing the
distinct clean releases ("2025-01-01", "p7_39d") and then
("2025-01-01", "7.39d") leave a ledger with a single row. The slugged
form of the second release's patch ("p7_39d") collides with the verbatim
patch of the first, so hasEntryInMd reports an existing row and the second
unique (date, patchRaw) pair gets no row — refuting "exactly one row per
unique (date, patchRaw) pair". -/
theorem c3_counterexample :
    (∀ o ∈ [c3ObsA, c3ObsB], ObsClean o) ∧
    pairOf c3ObsA ≠ pairOf c3ObsB ∧
    entriesPairs ((runSeq [c3ObsA, c3ObsB] ⟨none, none, none⟩).grids.getD [])
      = [pairOf c3ObsA] := by decide

/-- C3 (amended): for every sequence of completed normal-mode runs
observing clean releases, provided no observed verbatim patch equals the
slugged form of a same-date observed patch, the final ledger holds exactly
one row per unique (date, patchRaw) pair: its entry pairs are the
deduplicated observed pairs (most recently first-seen first) with no
duplicates. Rows are inserted only when hasEntryInMd reports no match for
the date and either patch representation. -/
theorem c3_unique_rows (obs : List RunObs)
    (hclean : ∀ o ∈ obs, ObsClean o)
    (hcol : ∀ o ∈ obs, ∀ o2 ∈ obs,
      o2.date = o.date → o2.patch ≠ patchSlug o.patch) :
    entriesPairs ((runSeq obs ⟨none, none, none⟩).grids.getD []) =
      observedUnique (obs.map pairOf) ∧
    (entriesPairs ((runSeq obs ⟨none, none, none⟩).grids.getD [])).Nodup := by
  obtain ⟨ins2, h1, h2, h3⟩ := c3_loop obs [] ⟨none, none, none⟩ hclean
    (fun x hx => absurd hx (List.not_mem_nil x))
    (fun x _ o2 ho2 => absurd ho2 (List.not_mem_nil o2))
    hcol (Or.inl ⟨rfl, rfl⟩)
  have hpairs : entriesPairs ((runSeq obs ⟨none, none, none⟩).grids.getD []) =
      ins2.map pairOf := by
    rcases h2 with ⟨hnone, hnil⟩ | hgr
    · rw [hnone, hnil]
      rfl
    · rw [hgr]
      exact pairs_of_ledger ins2 h1
  constructor
  · rw [hpairs]
    exact h3
  · rw [hpairs, h3]
    exact foldl_dedup_nodup (obs.map pairOf) [] List.nodup_nil

def c3WitObs : List RunObs :=
  [⟨strOf "2025-01-01", strOf "7.39d",
     strOf "a.json", strOf "b.json", strOf "c.json"⟩,
   ⟨strOf "2025-01-01", strOf "7.39d",
     strOf "a.json", strOf "b.json", strOf "c.json"⟩,
   ⟨strOf "2025-02-02", strOf "7.39e",
     strOf "a.json", strOf "b.json", strOf "c.json"⟩]

set_option maxRecDepth 40000 in
/-- Witness for C3 (amended): a concrete three-run sequence with one
repeated release satisfies the hypotheses, and the final ledger pairs are
exactly the two deduplicated observed pairs. -/
theorem c3_witness :
    ((∀ o ∈ c3WitObs, ObsClean o) ∧
      (∀ o ∈ c3WitObs, ∀ o2 ∈ c3WitObs,
        o2.date = o.date → o2.patch ≠ patchSlug o.patch)) ∧
    entriesPairs ((runSeq c3WitObs ⟨none, none, none⟩).grids.getD []) =
      observedUnique (c3WitObs.map pairOf) :=
  ⟨⟨by decide, by decide⟩,
    (c3_unique_rows c3WitObs (by decide) (by decide)).1⟩


end D2PT
